import Mathlib

/-!
Shallow embedding of the chess rules engine (`engine/game.py`, `engine/fen.py`).

Conventions used throughout:
* A Python `(row, col)` board coordinate is a pair of `Int`s (Python ints).
* `board` is the 64-key dict `{(row, col): Optional[Piece]}`; it is modelled as a
  total function `Fin 8 → Fin 8 → Option Piece` together with `bGet`/`bSet`
  wrappers with `dict.get` semantics (out-of-range lookups give `none`, writes
  outside the 64 keys cannot occur through the engine and are no-ops).
* Dict iteration (`board.items()`) is row-major insertion order, which both
  `reset` and `import_fen` establish and every later write preserves; it is
  modelled by the row-major list `squares`.
* Python exceptions (`ValueError`) are modelled by returning the post-call
  object state paired with `Option String` / `Except String`, sequencing the
  mutations exactly as the source does.
-/

set_option maxHeartbeats 1000000
set_option maxRecDepth 100000

inductive Color where
  | white
  | black
deriving DecidableEq, Repr

/-- `"black" if color == "white" else "white"` -/
def Color.other : Color → Color
  | .white => .black
  | .black => .white

inductive PieceType where
  | K
  | Q
  | R
  | B
  | N
  | P
deriving DecidableEq, Repr

/-- Python `Piece = Tuple[str, str]` — a (color, type) pair. -/
abbrev Piece := Color × PieceType

/-- Python `Position = Tuple[int, int]`. -/
abbrev Pos := Int × Int

/-- The 64-key board dict. -/
abbrev Board := Fin 8 → Fin 8 → Option Piece

/-- `ChessGame.is_on_board` -/
def isOnBoard (row col : Int) : Bool :=
  0 ≤ row && row < 8 && 0 ≤ col && col < 8

/-- `self.board.get((row, col))`: `None` for keys outside the 64-square dict. -/
def bGet (b : Board) (row col : Int) : Option Piece :=
  if h : 0 ≤ row ∧ row < 8 ∧ 0 ≤ col ∧ col < 8 then
    b ⟨row.toNat, by omega⟩ ⟨col.toNat, by omega⟩
  else
    none

/-- `self.board[(row, col)] = v` (all engine writes target one of the 64 keys). -/
def bSet (b : Board) (row col : Int) (v : Option Piece) : Board :=
  fun i j => if (i.val : Int) = row ∧ (j.val : Int) = col then v else b i j

/-- The 64 dict keys in insertion (row-major) order. -/
def squares : List Pos :=
  (List.range 64).map (fun i => (((i / 8 : Nat) : Int), ((i % 8 : Nat) : Int)))

/-- `ChessGame.is_empty` -/
def isEmptyAt (b : Board) (pos : Pos) : Bool :=
  bGet b pos.1 pos.2 = none

/-- `ChessGame.is_enemy_piece` -/
def isEnemyPiece (b : Board) (pos : Pos) (playerColor : Color) : Bool :=
  match bGet b pos.1 pos.2 with
  | none => false
  | some piece => piece.1 ≠ playerColor

inductive Status where
  | check
  | checkmate
  | stalemate
deriving DecidableEq, Repr

/-- The per-color castling dict `{"K": bool, "Q": bool}` for both colors. -/
structure CastlingRights where
  whiteK : Bool
  whiteQ : Bool
  blackK : Bool
  blackQ : Bool
deriving DecidableEq, Repr

/-- `self.castling_rights[color]["K"]` -/
def CastlingRights.kside (cr : CastlingRights) : Color → Bool
  | .white => cr.whiteK
  | .black => cr.blackK

/-- `self.castling_rights[color]["Q"]` -/
def CastlingRights.qside (cr : CastlingRights) : Color → Bool
  | .white => cr.whiteQ
  | .black => cr.blackQ

/-- The mutable state of a `ChessGame` instance. -/
structure ChessGame where
  board : Board
  castling_rights : CastlingRights
  current_player : Color
  en_passant_target : Option Pos
  en_passant_expires : Option Int
  turn_counter : Int
  halfmove_clock : Int
  fullmove_number : Int
  game_over : Bool
  status : Option Status
  winner : Option Color
deriving DecidableEq

/-- `MoveResult` dataclass. -/
structure MoveResult where
  status : Option Status
  game_over : Bool
  current_player : Color
  winner : Option Color
  in_check : Bool
  just_finished : Bool
deriving DecidableEq, Repr

/-- Back-rank piece order `["R", "N", "B", "Q", "K", "B", "N", "R"]`. -/
def pieceOrder (col : Fin 8) : PieceType :=
  match col with
  | 0 => .R
  | 1 => .N
  | 2 => .B
  | 3 => .Q
  | 4 => .K
  | 5 => .B
  | 6 => .N
  | 7 => .R

/-- The board built by `ChessGame.reset`. -/
def initialBoard : Board := fun r c =>
  match r with
  | 0 => some (.black, pieceOrder c)
  | 1 => some (.black, .P)
  | 6 => some (.white, .P)
  | 7 => some (.white, pieceOrder c)
  | _ => none

/-- `ChessGame.reset` (also the state `__init__` produces). -/
def resetGame : ChessGame where
  board := initialBoard
  castling_rights := ⟨true, true, true, true⟩
  current_player := .white
  en_passant_target := none
  en_passant_expires := none
  turn_counter := 0
  halfmove_clock := 0
  fullmove_number := 1
  game_over := false
  status := none
  winner := none

/-- One ray of the `while` loop in `get_linear_moves_for_board`: every square is
appended, and the ray stops after the first occupied square.  The loop runs at
most 8 iterations (coordinates move strictly monotonically through `0..7`), so
fuel 8 is exact; callers pass fuel 8. -/
def linearScanB (b : Board) (r c dr dc : Int) : Nat → List Pos
  | 0 => []
  | fuel + 1 =>
    if isOnBoard r c then
      (r, c) ::
        (if (bGet b r c).isSome then []
         else linearScanB b (r + dr) (c + dc) dr dc fuel)
    else []

/-- `ChessGame.get_linear_moves_for_board` -/
def getLinearMovesForBoard (b : Board) (row col : Int) (directions : List Pos) :
    List Pos :=
  directions.foldr (fun d acc => linearScanB b (row + d.1) (col + d.2) d.1 d.2 8 ++ acc) []

def knightOffsets : List Pos :=
  [(2, 1), (2, -1), (-2, 1), (-2, -1), (1, 2), (1, -2), (-1, 2), (-1, -2)]

def kingOffsets : List Pos :=
  [(1, 0), (-1, 0), (0, 1), (0, -1), (1, 1), (1, -1), (-1, 1), (-1, -1)]

def rookDirs : List Pos := [(1, 0), (-1, 0), (0, 1), (0, -1)]

def bishopDirs : List Pos := [(1, 1), (1, -1), (-1, 1), (-1, -1)]

def queenDirs : List Pos :=
  [(1, 0), (-1, 0), (0, 1), (0, -1), (1, 1), (1, -1), (-1, 1), (-1, -1)]

/-- `ChessGame.get_valid_moves_for_board` — per-piece pseudo attack patterns. -/
def getValidMovesForBoard (b : Board) (row col : Int) : List Pos :=
  match bGet b row col with
  | none => []
  | some (color, pType) =>
    match pType with
    | .P =>
      let direction : Int := if color = .white then -1 else 1
      ([(-1 : Int), 1].filterMap fun dc =>
        let r := row + direction
        let c := col + dc
        if 0 ≤ r ∧ r < 8 ∧ 0 ≤ c ∧ c < 8 then some (r, c) else none)
    | .R => getLinearMovesForBoard b row col rookDirs
    | .N =>
      knightOffsets.filterMap fun d =>
        let nr := row + d.1
        let nc := col + d.2
        if 0 ≤ nr ∧ nr < 8 ∧ 0 ≤ nc ∧ nc < 8 then some (nr, nc) else none
    | .B => getLinearMovesForBoard b row col bishopDirs
    | .Q => getLinearMovesForBoard b row col queenDirs
    | .K =>
      kingOffsets.filterMap fun d =>
        let nr := row + d.1
        let nc := col + d.2
        if 0 ≤ nr ∧ nr < 8 ∧ 0 ≤ nc ∧ nc < 8 then some (nr, nc) else none

/-- `ChessGame.find_king_for_board` — first matching key in insertion order. -/
def findKingForBoard (b : Board) (color : Color) : Option Pos :=
  squares.find? fun pos => bGet b pos.1 pos.2 = some (color, .K)

/-- `ChessGame.is_square_attacked` -/
def isSquareAttacked (b : Board) (square : Pos) (byColor : Color) : Bool :=
  squares.any fun pos =>
    match bGet b pos.1 pos.2 with
    | none => false
    | some piece =>
      piece.1 = byColor && square ∈ getValidMovesForBoard b pos.1 pos.2

/-- `ChessGame.is_in_check_for_board` (missing king counts as in check). -/
def isInCheckForBoard (b : Board) (color : Color) : Bool :=
  match findKingForBoard b color with
  | none => true
  | some kingPosition => isSquareAttacked b kingPosition color.other

/-- `ChessGame.is_in_check` -/
def isInCheck (g : ChessGame) (color : Color) : Bool :=
  isInCheckForBoard g.board color

/-- One ray of the `while` loop in `get_linear_moves` (the `self` version):
empty squares are appended and the scan continues; an enemy non-king square is
appended and stops the ray; an enemy king or a friendly piece stops the ray
without being appended. -/
def linearScan (b : Board) (r c dr dc : Int) (color : Color) : Nat → List Pos
  | 0 => []
  | fuel + 1 =>
    if isOnBoard r c then
      if isEmptyAt b (r, c) then
        (r, c) :: linearScan b (r + dr) (c + dc) dr dc color fuel
      else if isEnemyPiece b (r, c) color then
        match bGet b r c with
        | some piece => if piece.2 ≠ .K then [(r, c)] else []
        | none => []
      else []
    else []

/-- `ChessGame.get_linear_moves` -/
def getLinearMoves (b : Board) (row col : Int) (color : Color)
    (directions : List Pos) : List Pos :=
  directions.foldr
    (fun d acc => linearScan b (row + d.1) (col + d.2) d.1 d.2 color 8 ++ acc) []

/-- Single-step (knight/king offset) candidate rule: empty, or enemy non-king. -/
def stepTargets (b : Board) (row col : Int) (color : Color) (offsets : List Pos) :
    List Pos :=
  offsets.filterMap fun d =>
    let nr := row + d.1
    let nc := col + d.2
    if isOnBoard nr nc then
      if isEmptyAt b (nr, nc) then some (nr, nc)
      else
        match bGet b nr nc with
        | some piece => if piece.1 ≠ color ∧ piece.2 ≠ .K then some (nr, nc) else none
        | none => none
    else none

/-- `ChessGame.can_castle_kingside` -/
def canCastleKingside (g : ChessGame) (color : Color) : Bool :=
  if !(g.castling_rights.kside color) then false
  else
    let row : Int := if color = .white then 7 else 0
    if bGet g.board row 4 ≠ some (color, .K) ∨ bGet g.board row 7 ≠ some (color, .R) then
      false
    else if !(isEmptyAt g.board (row, 5)) || !(isEmptyAt g.board (row, 6)) then false
    else
      let opponent := color.other
      if isSquareAttacked g.board (row, 4) opponent then false
      else if isSquareAttacked g.board (row, 5) opponent then false
      else if isSquareAttacked g.board (row, 6) opponent then false
      else true

/-- `ChessGame.can_castle_queenside` -/
def canCastleQueenside (g : ChessGame) (color : Color) : Bool :=
  if !(g.castling_rights.qside color) then false
  else
    let row : Int := if color = .white then 7 else 0
    if bGet g.board row 4 ≠ some (color, .K) ∨ bGet g.board row 0 ≠ some (color, .R) then
      false
    else if !(isEmptyAt g.board (row, 1)) || !(isEmptyAt g.board (row, 2))
        || !(isEmptyAt g.board (row, 3)) then false
    else
      let opponent := color.other
      if isSquareAttacked g.board (row, 4) opponent then false
      else if isSquareAttacked g.board (row, 3) opponent then false
      else if isSquareAttacked g.board (row, 2) opponent then false
      else true

/-- The en-passant test `self.en_passant_target is not None and
self.en_passant_expires == self.turn_counter and target_pos == self.en_passant_target`
(`None == int` is `False` in Python). -/
def epMatches (g : ChessGame) (targetPos : Pos) : Bool :=
  match g.en_passant_target, g.en_passant_expires with
  | some t, some e => e = g.turn_counter && targetPos = t
  | some _, none => false
  | none, _ => false

/-- The forward-push part of the pawn branch of `get_valid_moves`. -/
def pawnForwards (g : ChessGame) (row col : Int) (color : Color) : List Pos :=
  let direction : Int := if color = .white then -1 else 1
  let startRow : Int := if color = .white then 6 else 1
  let forwardOne : Pos := (row + direction, col)
  if isOnBoard forwardOne.1 forwardOne.2 && isEmptyAt g.board forwardOne then
    let forwardTwo : Pos := (row + 2 * direction, col)
    forwardOne ::
      (if row = startRow && isEmptyAt g.board forwardTwo then [forwardTwo] else [])
  else []

/-- One on-board diagonal of the pawn branch: the enemy-non-king capture and
the en-passant membership test, in source order. -/
def pawnDiagBlock (g : ChessGame) (color : Color) (targetPos : Pos) : List Pos :=
  (if isEnemyPiece g.board targetPos color then
     match bGet g.board targetPos.1 targetPos.2 with
     | some piece => if piece.2 ≠ .K then [targetPos] else []
     | none => []
   else []) ++
  (if epMatches g targetPos then [targetPos] else [])

/-- The pawn branch of `get_valid_moves`: forward pushes, diagonal captures of
enemy non-kings, and the en-passant destination. -/
def pawnCandidates (g : ChessGame) (row col : Int) (color : Color) : List Pos :=
  let direction : Int := if color = .white then -1 else 1
  pawnForwards g row col color ++
    [(-1 : Int), 1].foldr
      (fun dc acc =>
        let targetPos : Pos := (row + direction, col + dc)
        if isOnBoard targetPos.1 targetPos.2 then pawnDiagBlock g color targetPos ++ acc
        else acc) []

/-- The pseudo-legal candidate list built by `get_valid_moves` before the
self-check filter. -/
def candidateMoves (g : ChessGame) (row col : Int) : List Pos :=
  match bGet g.board row col with
  | none => []
  | some (color, pType) =>
    match pType with
    | .P => pawnCandidates g row col color
    | .R => getLinearMoves g.board row col color rookDirs
    | .N => stepTargets g.board row col color knightOffsets
    | .B => getLinearMoves g.board row col color bishopDirs
    | .Q => getLinearMoves g.board row col color queenDirs
    | .K =>
      stepTargets g.board row col color kingOffsets ++
        (if canCastleKingside g color then [(row, col + 2)] else []) ++
        (if canCastleQueenside g color then [(row, col - 2)] else [])

/-- `ChessGame.simulate_move` — scratch copy with the move tentatively applied
(including en-passant pawn removal). -/
def simulateMove (g : ChessGame) (startPos endPos : Pos) : Board :=
  match bGet g.board startPos.1 startPos.2 with
  | none => g.board
  | some piece =>
    let b1 :=
      if piece.2 = .P && epMatches g endPos then
        bSet g.board startPos.1 endPos.2 none
      else g.board
    bSet (bSet b1 endPos.1 endPos.2 (some piece)) startPos.1 startPos.2 none

/-- `ChessGame.get_valid_moves` — candidates filtered by the self-check test. -/
def getValidMoves (g : ChessGame) (row col : Int) : List Pos :=
  match bGet g.board row col with
  | none => []
  | some (color, _) =>
    (candidateMoves g row col).filter fun move =>
      !(isInCheckForBoard (simulateMove g (row, col) move) color)

/-- `ChessGame.is_checkmate`: in check and no piece of the color has a non-empty
legal move list (the dict iteration with early `return False`). -/
def isCheckmate (g : ChessGame) (color : Color) : Bool :=
  if !(isInCheck g color) then false
  else
    !(squares.any fun pos =>
      match bGet g.board pos.1 pos.2 with
      | none => false
      | some piece => piece.1 = color && getValidMoves g pos.1 pos.2 ≠ [])

/-- `ChessGame.is_stalemate`: not in check and no piece of the color has a
non-empty legal move list. -/
def isStalemate (g : ChessGame) (color : Color) : Bool :=
  if isInCheck g color then false
  else
    !(squares.any fun pos =>
      match bGet g.board pos.1 pos.2 with
      | none => false
      | some piece => piece.1 = color && getValidMoves g pos.1 pos.2 ≠ [])

/-- `ChessGame._update_status` — recompute `status`/`game_over`/`winner` for the
side to move. -/
def updateStatus (g : ChessGame) : ChessGame :=
  if isInCheck g g.current_player then
    if isCheckmate g g.current_player then
      { g with status := some .checkmate, game_over := true,
               winner := some (if g.current_player = .black then Color.white else Color.black) }
    else
      { g with status := some .check, game_over := false, winner := none }
  else
    if isStalemate g g.current_player then
      { g with status := some .stalemate, game_over := true, winner := none }
    else
      { g with status := none, game_over := false, winner := none }

/-- The first castling-rights clause group of `_move_piece`: any king move
clears both rights of the mover's color; a rook move from an original corner
square clears that corner's right. -/
def rightsFromMover (cr0 : CastlingRights) (piece : Piece) (startPos : Pos) :
    CastlingRights :=
  if piece.2 = .K then
    match piece.1 with
    | .white => { cr0 with whiteK := false, whiteQ := false }
    | .black => { cr0 with blackK := false, blackQ := false }
  else if piece.2 = .R then
    if startPos = ((7 : Int), (7 : Int)) then { cr0 with whiteK := false }
    else if startPos = ((7 : Int), (0 : Int)) then { cr0 with whiteQ := false }
    else if startPos = ((0 : Int), (7 : Int)) then { cr0 with blackK := false }
    else if startPos = ((0 : Int), (0 : Int)) then { cr0 with blackQ := false }
    else cr0
  else cr0

/-- The capture clause of `_move_piece`: when the destination held a rook (the
source binds its color to `t_color` but never uses it), landing on an original
corner square clears that corner's right, whatever the captured rook's
color. -/
def rightsFromCapture (cr1 : CastlingRights) (endPos : Pos)
    (targetBefore : Option Piece) : CastlingRights :=
  match targetBefore with
  | some tb =>
    if tb.2 = .R then
      if endPos = ((7 : Int), (7 : Int)) then { cr1 with whiteK := false }
      else if endPos = ((7 : Int), (0 : Int)) then { cr1 with whiteQ := false }
      else if endPos = ((0 : Int), (7 : Int)) then { cr1 with blackK := false }
      else if endPos = ((0 : Int), (0 : Int)) then { cr1 with blackQ := false }
      else cr1
    else cr1
  | none => cr1

/-- The castling-rights update of `_move_piece` (`cr1` then `cr2`). -/
def rightsAfter (cr0 : CastlingRights) (piece : Piece) (startPos endPos : Pos)
    (targetBefore : Option Piece) : CastlingRights :=
  rightsFromCapture (rightsFromMover cr0 piece startPos) endPos targetBefore

/-- The board update of `_move_piece`: clear source, occupy destination,
en-passant pawn removal, castling rook relocation, queen auto-promotion. -/
def boardAfter (g : ChessGame) (piece : Piece) (startPos endPos : Pos) : Board :=
  let pType := piece.2
  let enPassantCapture := pType = .P && epMatches g endPos
  let b1 := bSet g.board startPos.1 startPos.2 none
  let b2 := bSet b1 endPos.1 endPos.2 (some piece)
  let b3 :=
    if enPassantCapture then bSet b2 startPos.1 endPos.2 none else b2
  let b4 :=
    if pType = .K ∧ (startPos.2 - endPos.2).natAbs = 2 then
      let row := startPos.1
      if endPos.2 = 6 then
        bSet (bSet b3 row 5 (bGet b3 row 7)) row 7 none
      else if endPos.2 = 2 then
        bSet (bSet b3 row 3 (bGet b3 row 0)) row 0 none
      else b3
    else b3
  if pType = .P ∧ (endPos.1 = 0 ∨ endPos.1 = 7) then
    bSet b4 endPos.1 endPos.2 (some (piece.1, .Q))
  else b4

/-- Whether `_move_piece` records a new en-passant window (pawn double push). -/
def isDoublePush (piece : Piece) (startPos endPos : Pos) : Prop :=
  piece.2 = .P ∧ (endPos.1 - startPos.1).natAbs = 2

instance (piece : Piece) (startPos endPos : Pos) :
    Decidable (isDoublePush piece startPos endPos) := by
  unfold isDoublePush; infer_instance

/-- `ChessGame._move_piece`.  The dead `piece is None` branch (guarded by
`apply_move`) returns the state unchanged. -/
def movePiece (g : ChessGame) (startPos endPos : Pos) : ChessGame :=
  match bGet g.board startPos.1 startPos.2 with
  | none => g
  | some piece =>
    let targetBefore := bGet g.board endPos.1 endPos.2
    let doublePush := isDoublePush piece startPos endPos
    let epT' :=
      if doublePush then some (Int.fdiv (startPos.1 + endPos.1) 2, startPos.2)
      else g.en_passant_target
    let epE' := if doublePush then some (g.turn_counter + 1) else g.en_passant_expires
    { g with board := boardAfter g piece startPos endPos,
             castling_rights := rightsAfter g.castling_rights piece startPos endPos targetBefore,
             en_passant_target := epT', en_passant_expires := epE' }

/-- `ChessGame._switch_player`. -/
def switchPlayer (g : ChessGame) : ChessGame :=
  let tc := g.turn_counter + 1
  let clearEp : Bool :=
    match g.en_passant_expires with
    | some e => e < tc
    | none => false
  let epT := if clearEp then none else g.en_passant_target
  let epE := if clearEp then none else g.en_passant_expires
  if g.current_player = .white then
    { g with turn_counter := tc, en_passant_target := epT, en_passant_expires := epE,
             current_player := .black }
  else
    { g with turn_counter := tc, en_passant_target := epT, en_passant_expires := epE,
             current_player := .white, fullmove_number := g.fullmove_number + 1 }

/-- The committing tail of `apply_move` (after all four precondition checks):
move the piece, update the halfmove clock, switch player, recompute status,
and build the `MoveResult`. -/
def commitMove (g : ChessGame) (startPos endPos : Pos) (piece : Piece) :
    ChessGame × Except String MoveResult :=
  let capture0 := (bGet g.board endPos.1 endPos.2).isSome
  let enPassantCapture := piece.2 = .P && epMatches g endPos
  let capture := capture0 || enPassantCapture
  let g1 := movePiece g startPos endPos
  let g2 :=
    if piece.2 = .P || capture then { g1 with halfmove_clock := 0 }
    else { g1 with halfmove_clock := g1.halfmove_clock + 1 }
  let previousGameOver := g2.game_over
  let g3 := switchPlayer g2
  let g4 := updateStatus g3
  (g4, .ok
    { status := g4.status
      game_over := g4.game_over
      current_player := g4.current_player
      winner := g4.winner
      in_check := g4.status = some .check
      just_finished := g4.game_over && !previousGameOver })

/-- `ChessGame.apply_move`.  The pair carries the Python object's state after
the call (unchanged when a `ValueError` is raised, since every check precedes
the first mutation) together with the raised error or returned `MoveResult`. -/
def applyMove (g : ChessGame) (startPos endPos : Pos) :
    ChessGame × Except String MoveResult :=
  if g.game_over then
    (g, .error "Das Spiel ist bereits beendet.")
  else
    match bGet g.board startPos.1 startPos.2 with
    | none => (g, .error "Am Startfeld befindet sich keine Figur.")
    | some piece =>
      if piece.1 ≠ g.current_player then
        (g, .error "Die ausgewaehlte Figur gehoert nicht dem Spieler am Zug.")
      else
        let validMoves := getValidMoves g startPos.1 startPos.2
        if endPos ∉ validMoves then
          (g, .error "Der Zug ist nicht legal.")
        else
          commitMove g startPos endPos piece

/-! ### FEN codec (`engine/fen.py`)

Python strings are modelled as `List Char` (ASCII character classes; the
engine only ever produces and consumes ASCII FEN text). -/

/-- Whitespace for Python `str.split()` with no separator. -/
def pyIsSpace (c : Char) : Bool :=
  c = ' ' || c = '\t' || c = '\n' || c = '\r'

def isAsciiDigit (c : Char) : Bool :=
  '0' ≤ c && c ≤ '9'

def digitVal (c : Char) : Nat :=
  c.toNat - '0'.toNat

/-- `str.split()` worker: runs of whitespace separate tokens, no empty tokens. -/
def splitWSAux : List Char → List Char → List (List Char)
  | [], acc => if acc = [] then [] else [acc.reverse]
  | c :: cs, acc =>
    if pyIsSpace c then
      if acc = [] then splitWSAux cs [] else acc.reverse :: splitWSAux cs []
    else splitWSAux cs (c :: acc)

/-- `fen.strip().split()` (with no argument, `split` already ignores
leading/trailing whitespace, so `strip` is absorbed). -/
def splitWS (l : List Char) : List (List Char) :=
  splitWSAux l []

/-- `str.split(sep)` worker for a one-character separator: splits at every
occurrence and keeps empty pieces. -/
def splitCharAux (sep : Char) : List Char → List Char → List (List Char)
  | [], acc => [acc.reverse]
  | c :: cs, acc =>
    if c = sep then acc.reverse :: splitCharAux sep cs []
    else splitCharAux sep cs (c :: acc)

/-- `placement.split("/")` -/
def splitOnSlash (l : List Char) : List (List Char) :=
  splitCharAux '/' l []

/-- `PIECE_TO_CHAR` -/
def pieceToChar : Piece → Char
  | (.white, .P) => 'P'
  | (.white, .N) => 'N'
  | (.white, .B) => 'B'
  | (.white, .R) => 'R'
  | (.white, .Q) => 'Q'
  | (.white, .K) => 'K'
  | (.black, .P) => 'p'
  | (.black, .N) => 'n'
  | (.black, .B) => 'b'
  | (.black, .R) => 'r'
  | (.black, .Q) => 'q'
  | (.black, .K) => 'k'

/-- `CHAR_TO_PIECE` -/
def charToPiece (c : Char) : Option Piece :=
  if c = 'P' then some (.white, .P)
  else if c = 'N' then some (.white, .N)
  else if c = 'B' then some (.white, .B)
  else if c = 'R' then some (.white, .R)
  else if c = 'Q' then some (.white, .Q)
  else if c = 'K' then some (.white, .K)
  else if c = 'p' then some (.black, .P)
  else if c = 'n' then some (.black, .N)
  else if c = 'b' then some (.black, .B)
  else if c = 'r' then some (.black, .R)
  else if c = 'q' then some (.black, .Q)
  else if c = 'k' then some (.black, .K)
  else none

def digitChar (n : Nat) : Char :=
  Char.ofNat (48 + n)

/-- Decimal digits of a natural number, most significant first (`str(n)`). -/
def natToChars (n : Nat) : List Char :=
  if n < 10 then [digitChar n]
  else natToChars (n / 10) ++ [digitChar (n % 10)]
termination_by n
decreasing_by exact Nat.div_lt_self (by omega) (by omega)

/-- Python `str(v)` for an `int`. -/
def intToChars (v : Int) : List Char :=
  if v < 0 then '-' :: natToChars (-v).toNat else natToChars v.toNat

/-- Digit-run tail of a Python integer literal: digits with single underscores
allowed between digits. -/
def pyDigitsAux : List Char → Nat → Option Nat
  | [], acc => some acc
  | c :: cs, acc =>
    if c = '_' then
      match cs with
      | c2 :: cs2 =>
        if isAsciiDigit c2 then pyDigitsAux cs2 (acc * 10 + digitVal c2) else none
      | [] => none
    else if isAsciiDigit c then pyDigitsAux cs (acc * 10 + digitVal c) else none

/-- An unsigned Python integer literal body (first character must be a digit). -/
def pyNatPart : List Char → Option Nat
  | [] => none
  | c :: cs => if isAsciiDigit c then pyDigitsAux cs (digitVal c) else none

/-- Python `int(s)` on a whitespace-free token: optional sign, then digits
(with Python's underscore grouping).  `None` models the raised `ValueError`. -/
def pyIntOfChars : List Char → Option Int
  | [] => none
  | c :: cs =>
    if c = '+' then (pyNatPart cs).map fun n => (n : Int)
    else if c = '-' then (pyNatPart cs).map fun n => -(n : Int)
    else (pyNatPart (c :: cs)).map fun n => (n : Int)

/-- `FILES[col]` for `col` in `0..7` (the only values the engine feeds it). -/
def fileChar (col : Int) : Char :=
  if col = 0 then 'a'
  else if col = 1 then 'b'
  else if col = 2 then 'c'
  else if col = 3 then 'd'
  else if col = 4 then 'e'
  else if col = 5 then 'f'
  else if col = 6 then 'g'
  else if col = 7 then 'h'
  else '?'

/-- `FILES.index(c)` as an option. -/
def fileIdx (c : Char) : Option Int :=
  if c = 'a' then some 0
  else if c = 'b' then some 1
  else if c = 'c' then some 2
  else if c = 'd' then some 3
  else if c = 'e' then some 4
  else if c = 'f' then some 5
  else if c = 'g' then some 6
  else if c = 'h' then some 7
  else none

/-- `square_to_notation` (`f"{FILES[col]}{8 - row}"`). -/
def squareToAlg (pos : Pos) : List Char :=
  fileChar pos.2 :: intToChars (8 - pos.1)

/-- `notation_to_square`; `none` models the raised `ValueError`. -/
def algToSquare : List Char → Option Pos
  | [f, d] =>
    match fileIdx f with
    | none => none
    | some col =>
      if '1' ≤ d && d ≤ '8' then some ((8 : Int) - (digitVal d : Int), col)
      else none
  | _ => none

/-- The per-rank run-length emitter of `export_fen`: `l` is the rest of the
rank's squares, `n` the count of pending empty squares. -/
def rleRank : List (Option Piece) → Nat → List Char
  | [], 0 => []
  | [], n + 1 => [digitChar (n + 1)]
  | none :: rest, n => rleRank rest (n + 1)
  | some p :: rest, n =>
    (if n = 0 then [] else [digitChar n]) ++ pieceToChar p :: rleRank rest 0

/-- Python `sep.join(parts)`. -/
def joinSep (sep : List Char) : List (List Char) → List Char
  | [] => []
  | [t] => t
  | t :: ts => t ++ sep ++ joinSep sep ts

/-- The board-placement field of `export_fen`. -/
def exportPlacement (b : Board) : List Char :=
  joinSep ['/'] ((List.finRange 8).map fun r => rleRank (List.ofFn fun c => b r c) 0)

/-- The castling field of `export_fen`. -/
def exportCastling (cr : CastlingRights) : List Char :=
  let s :=
    (if cr.whiteK then ['K'] else []) ++ (if cr.whiteQ then ['Q'] else []) ++
    (if cr.blackK then ['k'] else []) ++ (if cr.blackQ then ['q'] else [])
  if s = [] then ['-'] else s

/-- `export_fen`. -/
def exportFen (g : ChessGame) : List Char :=
  let placement := exportPlacement g.board
  let activeColor := if g.current_player = .white then ['w'] else ['b']
  let castling := exportCastling g.castling_rights
  let enPassant :=
    match g.en_passant_target, g.en_passant_expires with
    | some t, some e => if e = g.turn_counter then squareToAlg t else ['-']
    | some _, none => ['-']
    | none, _ => ['-']
  joinSep [' ']
    [placement, activeColor, castling, enPassant,
     intToChars g.halfmove_clock, intToChars g.fullmove_number]

def emptyBoard : Board := fun _ _ => none

/-- The per-rank parsing loop of `import_fen`, writing `board[(row, col)]`. -/
def parseRankB : List Char → Int → Int → Board → Except String Board
  | [], _, col, b =>
    if col = 8 then .ok b
    else .error "Eine Reihe der FEN enthaelt zu wenige Felder."
  | ch :: rest, row, col, b =>
    if isAsciiDigit ch then parseRankB rest row (col + (digitVal ch : Int)) b
    else
      match charToPiece ch with
      | none => .error "Unbekanntes FEN-Zeichen."
      | some piece =>
        if 8 ≤ col then .error "Zu viele Spalten in einer Reihe der FEN."
        else parseRankB rest row (col + 1) (bSet b row col (some piece))

def parseRanksB : List (List Char) → Int → Board → Except String Board
  | [], _, b => .ok b
  | rank :: rest, row, b =>
    match parseRankB rank row 0 b with
    | .error e => .error e
    | .ok b2 => parseRanksB rest (row + 1) b2

/-- Placement parsing (rank count, per-rank square count, piece letters); this
all happens on a local dict before any `game` field is assigned. -/
def parsePlacement (placement : List Char) : Except String Board :=
  let ranks := splitOnSlash placement
  if ranks.length ≠ 8 then
    .error "Die Figurenaufstellung muss acht Reihen enthalten."
  else parseRanksB ranks 0 emptyBoard

/-- The pure front part of `import_fen` up to and including the placement loop:
everything this parses fails before the first mutation of `game`. -/
def parseFenFields (fen : List Char) : Except String (Board × List (List Char)) :=
  let parts := splitWS fen
  if parts.length ≠ 6 then .error "Eine FEN muss aus sechs Teilen bestehen."
  else
    match parts with
    | [placement, activeColor, castling, enPassant, halfmove, fullmove] =>
      match parsePlacement placement with
      | .error e => .error e
      | .ok board => .ok (board, [activeColor, castling, enPassant, halfmove, fullmove])
    | _ => .error "Eine FEN muss aus sechs Teilen bestehen."

/-- `import_fen`.  The pair carries the Python object's state after the call:
failures up to the placement loop leave `game` untouched, while the later
`int(...)` / `notation_to_square` failures happen after `board`,
`current_player`, `castling_rights` (and for en passant also the counters)
have already been assigned, exactly as in the source. -/
def fenImport (g : ChessGame) (fen : List Char) : ChessGame × Option String :=
  match parseFenFields fen with
  | .error e => (g, some e)
  | .ok (board, fields) =>
    match fields with
    | [activeColor, castling, enPassant, halfmove, fullmove] =>
      let g1 := { g with board := board }
      let g2 := { g1 with
        current_player := if activeColor = ['w'] then Color.white else Color.black,
        castling_rights :=
          ⟨castling.contains 'K', castling.contains 'Q',
           castling.contains 'k', castling.contains 'q'⟩ }
      match pyIntOfChars fullmove with
      | none => (g2, some "invalid literal for int() in fullmove")
      | some fm =>
        let g3 := { g2 with fullmove_number := fm }
        match pyIntOfChars halfmove with
        | none => (g3, some "invalid literal for int() in halfmove")
        | some hm =>
          let g4 := { g3 with halfmove_clock := hm }
          let tc0 : Int := 2 * (g4.fullmove_number - 1)
          let tc := if g4.current_player = .black then tc0 + 1 else tc0
          let g5 := { g4 with turn_counter := tc }
          if enPassant ≠ ['-'] then
            match algToSquare enPassant with
            | none => (g5, some "Ungueltiges Feld.")
            | some target =>
              let g6 := { g5 with en_passant_target := some target,
                                  en_passant_expires := some g5.turn_counter }
              let g7 := { g6 with game_over := false, status := none, winner := none }
              (updateStatus g7, none)
          else
            let g6 := { g5 with en_passant_target := none, en_passant_expires := none }
            let g7 := { g6 with game_over := false, status := none, winner := none }
            (updateStatus g7, none)
    | _ => (g, some "Eine FEN muss aus sechs Teilen bestehen.")

/-! ### Derived observations used by the claims -/

/-- Whether `apply_move` raises `ValueError` (`InvalidMove`). -/
def applyFails (g : ChessGame) (startPos endPos : Pos) : Bool :=
  match (applyMove g startPos endPos).2 with
  | .error _ => true
  | .ok _ => false

/-- The loop of `is_checkmate`/`is_stalemate`: some piece of `color` has a
non-empty legality-filtered move list. -/
def hasAnyMove (g : ChessGame) (color : Color) : Bool :=
  squares.any fun pos =>
    match bGet g.board pos.1 pos.2 with
    | none => false
    | some piece => piece.1 = color && getValidMoves g pos.1 pos.2 ≠ []

/-- Number of legality-filtered moves of the side to move, over the pieces
whose type `keep` selects. -/
def totalMoveCount (g : ChessGame) (keep : PieceType → Bool) : Nat :=
  (squares.map fun pos =>
    match bGet g.board pos.1 pos.2 with
    | none => 0
    | some piece =>
      if piece.1 = g.current_player && keep piece.2 then
        (getValidMoves g pos.1 pos.2).length
      else 0).sum

/-! ### C8 -/

/-- C8: immediately after `reset()`, the side to move has exactly 20
legality-filtered moves in total: 16 pawn moves and 4 knight moves. -/
theorem C8_initial_position_move_count :
    totalMoveCount resetGame (fun _ => true) = 20 ∧
    totalMoveCount resetGame (fun t => t = .P) = 16 ∧
    totalMoveCount resetGame (fun t => t = .N) = 4 := by
  decide

/-! ### C1 -/

/-- C1: `apply_move(start, end)` raises `InvalidMove` exactly when the game is
already over, or the start square is empty, or the piece on the start square
does not belong to the side to move, or the destination is not in the
legality-filtered move set of the start square; and on every failure the
entire game state is returned unchanged. -/
theorem C1_invalid_move_exactly_and_no_mutation (g : ChessGame) (s e : Pos) :
    (applyFails g s e = true ↔
      (g.game_over = true ∨ bGet g.board s.1 s.2 = none ∨
        (∃ piece, bGet g.board s.1 s.2 = some piece ∧ piece.1 ≠ g.current_player) ∨
        e ∉ getValidMoves g s.1 s.2)) ∧
    (applyFails g s e = true → (applyMove g s e).1 = g) := by
  cases hgo : g.game_over with
  | true =>
    constructor
    · simp [applyFails, applyMove, hgo]
    · intro _; simp [applyMove, hgo]
  | false =>
    cases hb : bGet g.board s.1 s.2 with
    | none =>
      constructor
      · simp [applyFails, applyMove, hgo, hb]
      · intro _; simp [applyMove, hgo, hb]
    | some piece =>
      by_cases hc : piece.1 = g.current_player
      · by_cases hm : e ∈ getValidMoves g s.1 s.2
        · constructor
          · simp [applyFails, applyMove, hgo, hb, hc, hm, commitMove]
          · intro hfail
            exfalso
            simp [applyFails, applyMove, hgo, hb, hc, hm, commitMove] at hfail
        · constructor
          · simp [applyFails, applyMove, hgo, hb, hc, hm]
          · intro _; simp [applyMove, hgo, hb, hc, hm]
      · constructor
        · simp [applyFails, applyMove, hgo, hb, hc]
        · intro _; simp [applyMove, hgo, hb, hc]

/-! ### Structural lemmas about the move pipeline -/

lemma movePiece_current (g : ChessGame) (s e : Pos) :
    (movePiece g s e).current_player = g.current_player := by
  cases hb : bGet g.board s.1 s.2 <;> simp [movePiece, hb]

lemma movePiece_turn (g : ChessGame) (s e : Pos) :
    (movePiece g s e).turn_counter = g.turn_counter := by
  cases hb : bGet g.board s.1 s.2 <;> simp [movePiece, hb]

lemma movePiece_game_over (g : ChessGame) (s e : Pos) :
    (movePiece g s e).game_over = g.game_over := by
  cases hb : bGet g.board s.1 s.2 <;> simp [movePiece, hb]

lemma switchPlayer_current (g : ChessGame) :
    (switchPlayer g).current_player = g.current_player.other := by
  cases hc : g.current_player <;> simp [switchPlayer, hc, Color.other]

lemma switchPlayer_board (g : ChessGame) : (switchPlayer g).board = g.board := by
  cases hc : g.current_player <;> simp [switchPlayer, hc]

lemma switchPlayer_game_over (g : ChessGame) :
    (switchPlayer g).game_over = g.game_over := by
  cases hc : g.current_player <;> simp [switchPlayer, hc]

lemma switchPlayer_castling (g : ChessGame) :
    (switchPlayer g).castling_rights = g.castling_rights := by
  cases hc : g.current_player <;> simp [switchPlayer, hc]

lemma switchPlayer_turn (g : ChessGame) :
    (switchPlayer g).turn_counter = g.turn_counter + 1 := by
  cases hc : g.current_player <;> simp [switchPlayer, hc]

lemma updateStatus_board (g : ChessGame) : (updateStatus g).board = g.board := by
  unfold updateStatus; split_ifs <;> rfl

lemma updateStatus_current (g : ChessGame) :
    (updateStatus g).current_player = g.current_player := by
  unfold updateStatus; split_ifs <;> rfl

lemma updateStatus_castling (g : ChessGame) :
    (updateStatus g).castling_rights = g.castling_rights := by
  unfold updateStatus; split_ifs <;> rfl

lemma updateStatus_ep_target (g : ChessGame) :
    (updateStatus g).en_passant_target = g.en_passant_target := by
  unfold updateStatus; split_ifs <;> rfl

lemma updateStatus_ep_expires (g : ChessGame) :
    (updateStatus g).en_passant_expires = g.en_passant_expires := by
  unfold updateStatus; split_ifs <;> rfl

lemma updateStatus_turn (g : ChessGame) :
    (updateStatus g).turn_counter = g.turn_counter := by
  unfold updateStatus; split_ifs <;> rfl

lemma isInCheck_of_board_eq (g₁ g₂ : ChessGame) (h : g₁.board = g₂.board)
    (c : Color) : isInCheck g₁ c = isInCheck g₂ c := by
  unfold isInCheck; rw [h]

lemma hasAnyMove_updateStatus (g : ChessGame) (c : Color) :
    hasAnyMove (updateStatus g) c = hasAnyMove g c := by
  unfold updateStatus; split_ifs <;> rfl

lemma isCheckmate_eq (g : ChessGame) (c : Color) :
    isCheckmate g c = (isInCheck g c && !(hasAnyMove g c)) := by
  unfold isCheckmate hasAnyMove
  cases h : isInCheck g c <;> simp [h]

lemma isStalemate_eq (g : ChessGame) (c : Color) :
    isStalemate g c = (!(isInCheck g c) && !(hasAnyMove g c)) := by
  unfold isStalemate hasAnyMove
  cases h : isInCheck g c <;> simp [h]

lemma updateStatus_status (g : ChessGame) :
    (updateStatus g).status =
      if isInCheck g g.current_player then
        (if hasAnyMove g g.current_player then some .check else some .checkmate)
      else
        (if hasAnyMove g g.current_player then none else some .stalemate) := by
  cases h1 : isInCheck g g.current_player <;> cases h2 : hasAnyMove g g.current_player <;>
    simp [updateStatus, isCheckmate_eq, isStalemate_eq, h1, h2]

lemma updateStatus_game_over (g : ChessGame) :
    (updateStatus g).game_over = !(hasAnyMove g g.current_player) := by
  cases h1 : isInCheck g g.current_player <;> cases h2 : hasAnyMove g g.current_player <;>
    simp [updateStatus, isCheckmate_eq, isStalemate_eq, h1, h2]

lemma updateStatus_winner (g : ChessGame) :
    (updateStatus g).winner =
      if isInCheck g g.current_player && !(hasAnyMove g g.current_player) then
        some (if g.current_player = .black then Color.white else Color.black)
      else none := by
  cases h1 : isInCheck g g.current_player <;> cases h2 : hasAnyMove g g.current_player <;>
    simp [updateStatus, isCheckmate_eq, isStalemate_eq, h1, h2]

/-- Successful `apply_move` decomposed: all four precondition checks passed and
the result is `commitMove`. -/
lemma applyMove_ok_decomp (g : ChessGame) (s e : Pos) (g' : ChessGame)
    (res : MoveResult) (h : applyMove g s e = (g', Except.ok res)) :
    ∃ piece, g.game_over = false ∧ bGet g.board s.1 s.2 = some piece ∧
      piece.1 = g.current_player ∧ e ∈ getValidMoves g s.1 s.2 ∧
      commitMove g s e piece = (g', Except.ok res) := by
  cases hgo : g.game_over with
  | true => simp [applyMove, hgo] at h
  | false =>
    cases hb : bGet g.board s.1 s.2 with
    | none => simp [applyMove, hgo, hb] at h
    | some piece =>
      by_cases hc : piece.1 = g.current_player
      · by_cases hm : e ∈ getValidMoves g s.1 s.2
        · refine ⟨piece, rfl, rfl, hc, hm, ?_⟩
          simpa [applyMove, hgo, hb, hc, hm] using h
        · simp [applyMove, hgo, hb, hc, hm] at h
      · simp [applyMove, hgo, hb, hc] at h

/-- The committed state is `updateStatus (switchPlayer gmid)` for a `gmid` that
keeps the pre-move player, board changes of `_move_piece`, and `game_over`. -/
lemma commitMove_fst_shape (g : ChessGame) (s e : Pos) (piece : Piece) :
    ∃ gmid : ChessGame,
      (commitMove g s e piece).1 = updateStatus (switchPlayer gmid) ∧
      gmid.current_player = g.current_player ∧
      gmid.board = (movePiece g s e).board ∧
      gmid.castling_rights = (movePiece g s e).castling_rights ∧
      gmid.game_over = g.game_over ∧
      gmid.turn_counter = g.turn_counter ∧
      gmid.en_passant_target = (movePiece g s e).en_passant_target ∧
      gmid.en_passant_expires = (movePiece g s e).en_passant_expires := by
  unfold commitMove
  cases hcap : (decide (piece.2 = PieceType.P) ||
      ((bGet g.board e.1 e.2).isSome || (decide (piece.2 = PieceType.P) && epMatches g e))) with
  | true =>
    refine ⟨{ movePiece g s e with halfmove_clock := 0 }, ?_, ?_, rfl, rfl, ?_, ?_, rfl, rfl⟩
    · simp [hcap]
    · simp [movePiece_current]
    · simp [movePiece_game_over]
    · simp [movePiece_turn]
  | false =>
    refine ⟨{ movePiece g s e with
        halfmove_clock := (movePiece g s e).halfmove_clock + 1 }, ?_, ?_, rfl, rfl, ?_, ?_, rfl, rfl⟩
    · simp [hcap]
    · simp [movePiece_current]
    · simp [movePiece_game_over]
    · simp [movePiece_turn]

/-- The `MoveResult` returned by a committed move, in terms of the committed
state (`previous_game_over` is the pre-move `game_over`, which `_move_piece`
and the halfmove update never touch). -/
lemma commitMove_snd_shape (g : ChessGame) (s e : Pos) (piece : Piece) :
    (commitMove g s e piece).2 = Except.ok
      { status := (commitMove g s e piece).1.status
        game_over := (commitMove g s e piece).1.game_over
        current_player := (commitMove g s e piece).1.current_player
        winner := (commitMove g s e piece).1.winner
        in_check := (commitMove g s e piece).1.status = some .check
        just_finished := (commitMove g s e piece).1.game_over && !g.game_over } := by
  unfold commitMove
  cases hcap : (decide (piece.2 = PieceType.P) ||
      ((bGet g.board e.1 e.2).isSome || (decide (piece.2 = PieceType.P) && epMatches g e))) with
  | true => simp [hcap, movePiece_game_over]
  | false => simp [hcap, movePiece_game_over]

/-! ### C2 -/

/-- C2: after every committed move, with `A` = "the side now to move is in
check" (the code's `is_in_check`, spec §4.3's missing-king convention
included) and `M` = "some piece of that side has a legal move": `A ∧ M` gives
status `check` and the game continues; `A ∧ ¬M` gives `checkmate`, `game_over`
and winner = the side that just moved; `¬A ∧ ¬M` gives `stalemate`,
`game_over` and no winner; `¬A ∧ M` gives no status; and `game_over` holds
exactly for `checkmate`/`stalemate`. -/
theorem C2_status_machine_after_move (g g' : ChessGame) (s e : Pos)
    (res : MoveResult) (h : applyMove g s e = (g', Except.ok res)) :
    (isInCheck g' g'.current_player = true → hasAnyMove g' g'.current_player = true →
      g'.status = some .check ∧ g'.game_over = false) ∧
    (isInCheck g' g'.current_player = true → hasAnyMove g' g'.current_player = false →
      g'.status = some .checkmate ∧ g'.game_over = true ∧
        g'.winner = some g.current_player) ∧
    (isInCheck g' g'.current_player = false → hasAnyMove g' g'.current_player = false →
      g'.status = some .stalemate ∧ g'.game_over = true ∧ g'.winner = none) ∧
    (isInCheck g' g'.current_player = false → hasAnyMove g' g'.current_player = true →
      g'.status = none ∧ g'.game_over = false) ∧
    (g'.game_over = true ↔ (g'.status = some .checkmate ∨ g'.status = some .stalemate)) := by
  obtain ⟨piece, hgo, hb, hc, hm, hcm⟩ := applyMove_ok_decomp g s e g' res h
  obtain ⟨gmid, hshape, hcur, _, _, _, _, _, _⟩ := commitMove_fst_shape g s e piece
  have hg' : g' = updateStatus (switchPlayer gmid) := by
    have h1 := congrArg Prod.fst hcm
    simp only [hshape] at h1
    exact h1.symm
  have hboard : g'.board = (switchPlayer gmid).board := by
    rw [hg']; exact updateStatus_board _
  have hcur' : g'.current_player = (switchPlayer gmid).current_player := by
    rw [hg']; exact updateStatus_current _
  have hchk : isInCheck g' g'.current_player
      = isInCheck (switchPlayer gmid) (switchPlayer gmid).current_player := by
    rw [isInCheck_of_board_eq g' (switchPlayer gmid) hboard, hcur']
  have hany : hasAnyMove g' g'.current_player
      = hasAnyMove (switchPlayer gmid) (switchPlayer gmid).current_player := by
    rw [hg', updateStatus_current]
    exact hasAnyMove_updateStatus _ _
  have hcp3 : (switchPlayer gmid).current_player = g.current_player.other := by
    rw [switchPlayer_current, hcur]
  have hst : g'.status =
      if isInCheck (switchPlayer gmid) (switchPlayer gmid).current_player then
        (if hasAnyMove (switchPlayer gmid) (switchPlayer gmid).current_player then
          some .check else some .checkmate)
      else
        (if hasAnyMove (switchPlayer gmid) (switchPlayer gmid).current_player then
          none else some .stalemate) := by
    rw [hg']; exact updateStatus_status _
  have hgov : g'.game_over
      = !(hasAnyMove (switchPlayer gmid) (switchPlayer gmid).current_player) := by
    rw [hg']; exact updateStatus_game_over _
  have hwin : g'.winner =
      if isInCheck (switchPlayer gmid) (switchPlayer gmid).current_player &&
          !(hasAnyMove (switchPlayer gmid) (switchPlayer gmid).current_player) then
        some (if (switchPlayer gmid).current_player = .black then Color.white
              else Color.black)
      else none := by
    rw [hg']; exact updateStatus_winner _
  refine ⟨?_, ?_, ?_, ?_, ?_⟩
  · intro ha hb'
    rw [hchk] at ha; rw [hany] at hb'
    simp [hst, hgov, ha, hb']
  · intro ha hb'
    rw [hchk] at ha; rw [hany] at hb'
    refine ⟨by simp [hst, ha, hb'], by simp [hgov, hb'], ?_⟩
    rw [hwin, ha, hb']
    cases hcpg : g.current_player <;> simp [hcp3, hcpg, Color.other]
  · intro ha hb'
    rw [hchk] at ha; rw [hany] at hb'
    exact ⟨by simp [hst, ha, hb'], by simp [hgov, hb'], by simp [hwin, ha, hb']⟩
  · intro ha hb'
    rw [hchk] at ha; rw [hany] at hb'
    exact ⟨by simp [hst, ha, hb'], by simp [hgov, hb']⟩
  · rw [hst, hgov]
    cases h1 : isInCheck (switchPlayer gmid) (switchPlayer gmid).current_player <;>
      cases h2 : hasAnyMove (switchPlayer gmid) (switchPlayer gmid).current_player <;>
      simp

/-- The returned `MoveResult` of a successful `apply_move`, `none` on failure. -/
def moveResultOf (g : ChessGame) (startPos endPos : Pos) : Option MoveResult :=
  match (applyMove g startPos endPos).2 with
  | .ok r => some r
  | .error _ => none

lemma moveResultOf_eq_some (g : ChessGame) (s e : Pos) (r : MoveResult)
    (h : moveResultOf g s e = some r) :
    applyMove g s e = ((applyMove g s e).1, Except.ok r) := by
  unfold moveResultOf at h
  cases h2 : (applyMove g s e).2 with
  | error m => rw [h2] at h; simp at h
  | ok r0 =>
    rw [h2] at h
    simp only [Option.some.injEq] at h
    rw [← h, ← h2]

lemma movePiece_castling (g : ChessGame) (s e : Pos) (piece : Piece)
    (hb : bGet g.board s.1 s.2 = some piece) :
    (movePiece g s e).castling_rights =
      rightsAfter g.castling_rights piece s e (bGet g.board e.1 e.2) := by
  simp [movePiece, hb]

/-- A committed move updates the castling rights exactly by `rightsAfter`. -/
lemma applyMove_rights (g g' : ChessGame) (s e : Pos) (res : MoveResult)
    (piece : Piece) (h : applyMove g s e = (g', Except.ok res))
    (hp : bGet g.board s.1 s.2 = some piece) :
    g'.castling_rights =
      rightsAfter g.castling_rights piece s e (bGet g.board e.1 e.2) := by
  obtain ⟨piece0, hgo, hb, hc, hm, hcm⟩ := applyMove_ok_decomp g s e g' res h
  rw [hp] at hb
  have hpe : piece = piece0 := by injection hb
  subst hpe
  obtain ⟨gmid, hshape, _, _, hcr, _, _, _, _⟩ := commitMove_fst_shape g s e piece
  have hg' : g' = updateStatus (switchPlayer gmid) := by
    have h1 := congrArg Prod.fst hcm
    simp only [hshape] at h1
    exact h1.symm
  rw [hg', updateStatus_castling, switchPlayer_castling, hcr,
    movePiece_castling g s e piece hp]

/-- Whether an optional captured piece is a rook (of either color). -/
def isRookOpt : Option Piece → Bool
  | some p => p.2 = .R
  | none => false

lemma rightsFromMover_whiteK (cr : CastlingRights) (piece : Piece) (s : Pos) :
    (rightsFromMover cr piece s).whiteK =
      (cr.whiteK && !(piece.2 = .K && piece.1 = .white)
        && !(piece.2 = .R && s = ((7 : Int), (7 : Int)))) := by
  rcases piece with ⟨pc, pt⟩
  cases pt <;> cases pc <;> simp only [rightsFromMover] <;> split_ifs <;> simp_all

lemma rightsFromMover_whiteQ (cr : CastlingRights) (piece : Piece) (s : Pos) :
    (rightsFromMover cr piece s).whiteQ =
      (cr.whiteQ && !(piece.2 = .K && piece.1 = .white)
        && !(piece.2 = .R && s = ((7 : Int), (0 : Int)))) := by
  rcases piece with ⟨pc, pt⟩
  cases pt <;> cases pc <;> simp only [rightsFromMover] <;> split_ifs <;> simp_all

lemma rightsFromMover_blackK (cr : CastlingRights) (piece : Piece) (s : Pos) :
    (rightsFromMover cr piece s).blackK =
      (cr.blackK && !(piece.2 = .K && piece.1 = .black)
        && !(piece.2 = .R && s = ((0 : Int), (7 : Int)))) := by
  rcases piece with ⟨pc, pt⟩
  cases pt <;> cases pc <;> simp only [rightsFromMover] <;> split_ifs <;> simp_all

lemma rightsFromMover_blackQ (cr : CastlingRights) (piece : Piece) (s : Pos) :
    (rightsFromMover cr piece s).blackQ =
      (cr.blackQ && !(piece.2 = .K && piece.1 = .black)
        && !(piece.2 = .R && s = ((0 : Int), (0 : Int)))) := by
  rcases piece with ⟨pc, pt⟩
  cases pt <;> cases pc <;> simp only [rightsFromMover] <;> split_ifs <;> simp_all

lemma rightsFromCapture_whiteK (cr : CastlingRights) (e : Pos) (tb : Option Piece) :
    (rightsFromCapture cr e tb).whiteK =
      (cr.whiteK && !(isRookOpt tb && e = ((7 : Int), (7 : Int)))) := by
  rcases tb with _ | tbp
  · simp [rightsFromCapture, isRookOpt]
  · rcases tbp with ⟨tc, tt⟩
    cases tt <;> simp only [rightsFromCapture, isRookOpt] <;> split_ifs <;> simp_all

lemma rightsFromCapture_whiteQ (cr : CastlingRights) (e : Pos) (tb : Option Piece) :
    (rightsFromCapture cr e tb).whiteQ =
      (cr.whiteQ && !(isRookOpt tb && e = ((7 : Int), (0 : Int)))) := by
  rcases tb with _ | tbp
  · simp [rightsFromCapture, isRookOpt]
  · rcases tbp with ⟨tc, tt⟩
    cases tt <;> simp only [rightsFromCapture, isRookOpt] <;> split_ifs <;> simp_all

lemma rightsFromCapture_blackK (cr : CastlingRights) (e : Pos) (tb : Option Piece) :
    (rightsFromCapture cr e tb).blackK =
      (cr.blackK && !(isRookOpt tb && e = ((0 : Int), (7 : Int)))) := by
  rcases tb with _ | tbp
  · simp [rightsFromCapture, isRookOpt]
  · rcases tbp with ⟨tc, tt⟩
    cases tt <;> simp only [rightsFromCapture, isRookOpt] <;> split_ifs <;> simp_all

lemma rightsFromCapture_blackQ (cr : CastlingRights) (e : Pos) (tb : Option Piece) :
    (rightsFromCapture cr e tb).blackQ =
      (cr.blackQ && !(isRookOpt tb && e = ((0 : Int), (0 : Int)))) := by
  rcases tb with _ | tbp
  · simp [rightsFromCapture, isRookOpt]
  · rcases tbp with ⟨tc, tt⟩
    cases tt <;> simp only [rightsFromCapture, isRookOpt] <;> split_ifs <;> simp_all

lemma rightsAfter_whiteK (cr : CastlingRights) (piece : Piece) (s e : Pos)
    (tb : Option Piece) :
    (rightsAfter cr piece s e tb).whiteK =
      (cr.whiteK && !(piece.2 = .K && piece.1 = .white)
        && !(piece.2 = .R && s = ((7 : Int), (7 : Int)))
        && !(isRookOpt tb && e = ((7 : Int), (7 : Int)))) := by
  unfold rightsAfter
  rw [rightsFromCapture_whiteK, rightsFromMover_whiteK]

lemma rightsAfter_whiteQ (cr : CastlingRights) (piece : Piece) (s e : Pos)
    (tb : Option Piece) :
    (rightsAfter cr piece s e tb).whiteQ =
      (cr.whiteQ && !(piece.2 = .K && piece.1 = .white)
        && !(piece.2 = .R && s = ((7 : Int), (0 : Int)))
        && !(isRookOpt tb && e = ((7 : Int), (0 : Int)))) := by
  unfold rightsAfter
  rw [rightsFromCapture_whiteQ, rightsFromMover_whiteQ]

lemma rightsAfter_blackK (cr : CastlingRights) (piece : Piece) (s e : Pos)
    (tb : Option Piece) :
    (rightsAfter cr piece s e tb).blackK =
      (cr.blackK && !(piece.2 = .K && piece.1 = .black)
        && !(piece.2 = .R && s = ((0 : Int), (7 : Int)))
        && !(isRookOpt tb && e = ((0 : Int), (7 : Int)))) := by
  unfold rightsAfter
  rw [rightsFromCapture_blackK, rightsFromMover_blackK]

lemma rightsAfter_blackQ (cr : CastlingRights) (piece : Piece) (s e : Pos)
    (tb : Option Piece) :
    (rightsAfter cr piece s e tb).blackQ =
      (cr.blackQ && !(piece.2 = .K && piece.1 = .black)
        && !(piece.2 = .R && s = ((0 : Int), (0 : Int)))
        && !(isRookOpt tb && e = ((0 : Int), (0 : Int)))) := by
  unfold rightsAfter
  rw [rightsFromCapture_blackQ, rightsFromMover_blackQ]

/-! ### Concrete scenario positions (decoded from FEN strings) -/

/-- White pawn d2, black pawn e4, kings a1/a8, white to move. -/
def epDemoFen : List Char := "k7/8/8/8/4p3/8/3P4/K7 w - - 0 1".toList

def epDemo0 : ChessGame := (fenImport resetGame epDemoFen).1

/-- `epDemo0` after the double push d2-d4. -/
def epDemo1 : ChessGame := (applyMove epDemo0 (6, 3) (4, 3)).1

/-- `epDemo1` after the en-passant capture e4xd3. -/
def epDemo2 : ChessGame := (applyMove epDemo1 (4, 4) (5, 3)).1

/-- `epDemo1` after the unrelated reply Ka8-a7 instead. -/
def epDemo3 : ChessGame := (applyMove epDemo1 (0, 0) (1, 0)).1

/-- White queen h2, white king e1, black rook h1, black king a8; white's
kingside castling right is set in the FEN although a black rook occupies h1. -/
def c5fen : List Char := "k7/8/8/8/8/8/7Q/4K2r w K - 0 1".toList

def c5pos : ChessGame := (fenImport resetGame c5fen).1

/-- `c5pos` after the queen captures the black rook on h1. -/
def c5after : ChessGame := (applyMove c5pos (6, 7) (7, 7)).1

/-- White queen h1, white king b6, black king a8; Qh1-h8 is checkmate. -/
def c4fen : List Char := "k7/8/1K6/8/8/8/8/7Q w - - 0 1".toList

def c4pos : ChessGame := (fenImport resetGame c4fen).1

def c4after : ChessGame := (applyMove c4pos (7, 7) (0, 7)).1

/-! ### C9 -/

/-- C9: each castling-rights boolean is monotone under a committed move — a
right that is false before `apply_move` succeeds is still false after it. -/
theorem C9_castling_rights_monotone (g g' : ChessGame) (s e : Pos)
    (res : MoveResult) (h : applyMove g s e = (g', Except.ok res)) :
    (g.castling_rights.whiteK = false → g'.castling_rights.whiteK = false) ∧
    (g.castling_rights.whiteQ = false → g'.castling_rights.whiteQ = false) ∧
    (g.castling_rights.blackK = false → g'.castling_rights.blackK = false) ∧
    (g.castling_rights.blackQ = false → g'.castling_rights.blackQ = false) := by
  obtain ⟨piece, hgo, hb, hc, hm, hcm⟩ := applyMove_ok_decomp g s e g' res h
  have hr := applyMove_rights g g' s e res piece h hb
  refine ⟨?_, ?_, ?_, ?_⟩ <;> intro h0 <;>
    simp [hr, rightsAfter_whiteK, rightsAfter_whiteQ, rightsAfter_blackK,
      rightsAfter_blackQ, h0]

/-- Witness for C9 at a concrete input: in `epDemo0` (decoded with castling
field `-`) white's kingside right is false, and it is still false after the
committed double push d2-d4. -/
theorem C9_castling_rights_monotone_witness :
    epDemo0.castling_rights.whiteK = false ∧
    epDemo1.castling_rights.whiteK = false := by
  have happ : applyMove epDemo0 (6, 3) (4, 3) =
      (epDemo1, Except.ok ⟨none, false, .black, none, false, false⟩) :=
    moveResultOf_eq_some _ _ _ _ (by decide)
  have h := C9_castling_rights_monotone epDemo0 epDemo1 (6, 3) (4, 3)
    ⟨none, false, .black, none, false, false⟩ happ
  exact ⟨by decide, h.1 (by decide)⟩

/-! ### C5 -/

/-- Counterexample to C5: in `c5pos` white still holds the kingside right and
a black rook stands on h1 = (7,7), white's own corner.  White's queen (neither
king nor rook, so neither mover clause fires) captures that black rook, and
the code clears *white's* kingside right — although the destination is not a
corner square of the captured rook's owner, where the claim says no right may
be cleared by the capture. -/
theorem C5_counterexample_wrong_color_corner :
    c5pos.castling_rights.whiteK = true ∧
    bGet c5pos.board 6 7 = some (.white, .Q) ∧
    bGet c5pos.board 7 7 = some (.black, .R) ∧
    moveResultOf c5pos (6, 7) (7, 7) =
      some ⟨some .check, false, .black, none, true, false⟩ ∧
    c5after.castling_rights.whiteK = false := by
  refine ⟨by decide, by decide, by decide, by decide, by decide⟩

/-- C5 amended: after every committed move the four castling-rights booleans
are characterised exactly; in particular the capture clause clears the right
belonging to the *corner square* the capture lands on (requiring only that the
captured piece is a rook, of either color), not the right of the captured
rook's owner. -/
theorem C5_amended_capture_clears_corner_right (g g' : ChessGame) (s e : Pos)
    (res : MoveResult) (piece : Piece)
    (h : applyMove g s e = (g', Except.ok res))
    (hp : bGet g.board s.1 s.2 = some piece) :
    g'.castling_rights.whiteK =
      (g.castling_rights.whiteK && !(piece.2 = .K && piece.1 = .white)
        && !(piece.2 = .R && s = ((7 : Int), (7 : Int)))
        && !(isRookOpt (bGet g.board e.1 e.2) && e = ((7 : Int), (7 : Int)))) ∧
    g'.castling_rights.whiteQ =
      (g.castling_rights.whiteQ && !(piece.2 = .K && piece.1 = .white)
        && !(piece.2 = .R && s = ((7 : Int), (0 : Int)))
        && !(isRookOpt (bGet g.board e.1 e.2) && e = ((7 : Int), (0 : Int)))) ∧
    g'.castling_rights.blackK =
      (g.castling_rights.blackK && !(piece.2 = .K && piece.1 = .black)
        && !(piece.2 = .R && s = ((0 : Int), (7 : Int)))
        && !(isRookOpt (bGet g.board e.1 e.2) && e = ((0 : Int), (7 : Int)))) ∧
    g'.castling_rights.blackQ =
      (g.castling_rights.blackQ && !(piece.2 = .K && piece.1 = .black)
        && !(piece.2 = .R && s = ((0 : Int), (0 : Int)))
        && !(isRookOpt (bGet g.board e.1 e.2) && e = ((0 : Int), (0 : Int)))) := by
  have hr := applyMove_rights g g' s e res piece h hp
  rw [hr]
  exact ⟨rightsAfter_whiteK _ _ _ _ _, rightsAfter_whiteQ _ _ _ _ _,
    rightsAfter_blackK _ _ _ _ _, rightsAfter_blackQ _ _ _ _ _⟩

/-- Witness for the amended C5 at the concrete capture Qh2xh1. -/
theorem C5_amended_witness : c5after.castling_rights.whiteK = false := by
  have happ : applyMove c5pos (6, 7) (7, 7) =
      (c5after, Except.ok ⟨some .check, false, .black, none, true, false⟩) :=
    moveResultOf_eq_some _ _ _ _ (by decide)
  have h := C5_amended_capture_clears_corner_right c5pos c5after (6, 7) (7, 7)
    ⟨some .check, false, .black, none, true, false⟩ (.white, .Q) happ (by decide)
  rw [h.1]
  decide

/-! ### C4 -/

/-- Counterexample to C4: Qh1-h8 in `c4pos` delivers checkmate; the returned
`in_check` field is `false` although the opponent's king is attacked in the
resulting position. -/
theorem C4_counterexample_mate_not_flagged :
    moveResultOf c4pos (7, 7) (0, 7) =
      some ⟨some .checkmate, true, .black, some .white, false, true⟩ ∧
    isInCheck c4after .black = true := by
  exact ⟨by decide, by decide⟩

/-- C4 amended: `in_check` in the returned record is `status == "check"`,
i.e. true exactly when the opponent's king is attacked *and* the opponent
still has a legal move; on a checkmating move it is false. -/
theorem C4_amended_in_check_is_check_status (g g' : ChessGame) (s e : Pos)
    (res : MoveResult) (h : applyMove g s e = (g', Except.ok res)) :
    res.in_check = (isInCheck g' g'.current_player && hasAnyMove g' g'.current_player) := by
  obtain ⟨piece, hgo, hb, hc, hm, hcm⟩ := applyMove_ok_decomp g s e g' res h
  have hfst : (commitMove g s e piece).1 = g' := by rw [hcm]
  have hsnd : (commitMove g s e piece).2 = Except.ok res := by rw [hcm]
  have hres := commitMove_snd_shape g s e piece
  rw [hsnd, hfst] at hres
  have hrec : res =
      { status := g'.status, game_over := g'.game_over,
        current_player := g'.current_player, winner := g'.winner,
        in_check := decide (g'.status = some .check),
        just_finished := (g'.game_over && !g.game_over) } := by
    injection hres
  obtain ⟨gmid, hshape, hcur, _, _, _, _, _, _⟩ := commitMove_fst_shape g s e piece
  have hg' : g' = updateStatus (switchPlayer gmid) := by rw [← hfst, hshape]
  have hboard : g'.board = (switchPlayer gmid).board := by
    rw [hg']; exact updateStatus_board _
  have hcur' : g'.current_player = (switchPlayer gmid).current_player := by
    rw [hg']; exact updateStatus_current _
  have hchk : isInCheck g' g'.current_player
      = isInCheck (switchPlayer gmid) (switchPlayer gmid).current_player := by
    rw [isInCheck_of_board_eq g' (switchPlayer gmid) hboard, hcur']
  have hany : hasAnyMove g' g'.current_player
      = hasAnyMove (switchPlayer gmid) (switchPlayer gmid).current_player := by
    rw [hg', updateStatus_current]
    exact hasAnyMove_updateStatus _ _
  have hst : g'.status =
      if isInCheck (switchPlayer gmid) (switchPlayer gmid).current_player then
        (if hasAnyMove (switchPlayer gmid) (switchPlayer gmid).current_player then
          some .check else some .checkmate)
      else
        (if hasAnyMove (switchPlayer gmid) (switchPlayer gmid).current_player then
          none else some .stalemate) := by
    rw [hg']; exact updateStatus_status _
  rw [hrec, hchk, hany]
  cases h1 : isInCheck (switchPlayer gmid) (switchPlayer gmid).current_player <;>
    cases h2 : hasAnyMove (switchPlayer gmid) (switchPlayer gmid).current_player <;>
    simp [hst, h1, h2]

/-- Witness for the amended C4 at the concrete mating move Qh1-h8. -/
theorem C4_amended_witness :
    (false : Bool) = (isInCheck c4after c4after.current_player
      && hasAnyMove c4after c4after.current_player) := by
  have happ : applyMove c4pos (7, 7) (0, 7) =
      (c4after, Except.ok ⟨some .checkmate, true, .black, some .white, false, true⟩) :=
    moveResultOf_eq_some _ _ _ _ (by decide)
  exact C4_amended_in_check_is_check_status c4pos c4after (7, 7) (0, 7)
    ⟨some .checkmate, true, .black, some .white, false, true⟩ happ

/-- Witness for C2 at the concrete mating move Qh1-h8: side to move is in
check with no legal reply, so checkmate, game over, winner = the mover. -/
theorem C2_status_machine_witness :
    c4after.status = some .checkmate ∧ c4after.game_over = true ∧
    c4after.winner = some c4pos.current_player := by
  have happ : applyMove c4pos (7, 7) (0, 7) =
      (c4after, Except.ok ⟨some .checkmate, true, .black, some .white, false, true⟩) :=
    moveResultOf_eq_some _ _ _ _ (by decide)
  have h := C2_status_machine_after_move c4pos c4after (7, 7) (0, 7)
    ⟨some .checkmate, true, .black, some .white, false, true⟩ happ
  exact h.2.1 (by decide) (by decide)

/-! ### C6 lemmas: candidate destinations are empty or enemy non-king -/

lemma bGet_some_bounds {b : Board} {r c : Int} {q : Piece}
    (h : bGet b r c = some q) : 0 ≤ r ∧ r < 8 ∧ 0 ≤ c ∧ c < 8 := by
  by_cases hb : 0 ≤ r ∧ r < 8 ∧ 0 ≤ c ∧ c < 8
  · exact hb
  · rw [bGet, dif_neg hb] at h
    exact absurd h (by simp)

lemma mem_squares (p : Pos) :
    p ∈ squares ↔ (0 ≤ p.1 ∧ p.1 < 8 ∧ 0 ≤ p.2 ∧ p.2 < 8) := by
  constructor
  · intro h
    simp only [squares, List.mem_map, List.mem_range] at h
    obtain ⟨i, hi, hp⟩ := h
    rw [← hp]
    have h1 : i / 8 < 8 := Nat.div_lt_of_lt_mul (by omega)
    have h2 : i % 8 < 8 := Nat.mod_lt _ (by omega)
    simp only
    omega
  · intro hb
    simp only [squares, List.mem_map, List.mem_range]
    refine ⟨p.1.toNat * 8 + p.2.toNat, by omega, ?_⟩
    have h1 : (p.1.toNat * 8 + p.2.toNat) / 8 = p.1.toNat := by omega
    have h2 : (p.1.toNat * 8 + p.2.toNat) % 8 = p.2.toNat := by omega
    rw [h1, h2]
    have h3 : (p.1.toNat : Int) = p.1 := by omega
    have h4 : (p.2.toNat : Int) = p.2 := by omega
    rw [h3, h4]

/-- Destination property C6 needs: vacuous on empty squares, and any occupant
is an enemy non-king. -/
def safeDest (b : Board) (color : Color) (m : Pos) : Prop :=
  ∀ q : Piece, bGet b m.1 m.2 = some q → q.1 ≠ color ∧ q.2 ≠ .K

lemma linearScan_safe (b : Board) (color : Color) :
    ∀ (fuel : Nat) (r0 c0 dr dc : Int),
      ∀ m ∈ linearScan b r0 c0 dr dc color fuel, safeDest b color m := by
  intro fuel
  induction fuel with
  | zero => intro r0 c0 dr dc m hm; simp [linearScan] at hm
  | succ n ih =>
    intro r0 c0 dr dc m hm
    rw [linearScan] at hm
    by_cases hob : isOnBoard r0 c0
    · rw [if_pos hob] at hm
      by_cases hemp : isEmptyAt b (r0, c0)
      · rw [if_pos hemp] at hm
        rcases List.mem_cons.mp hm with hm1 | hm2
        · subst hm1
          intro q hq
          rw [isEmptyAt] at hemp
          simp only [decide_eq_true_eq] at hemp
          rw [hemp] at hq
          exact absurd hq (by simp)
        · exact ih _ _ _ _ m hm2
      · rw [if_neg hemp] at hm
        by_cases hen : isEnemyPiece b (r0, c0) color
        · rw [if_pos hen] at hm
          cases hbb : bGet b r0 c0 with
          | none =>
            rw [isEnemyPiece] at hen
            rw [hbb] at hen
            exact absurd hen (by simp)
          | some piece =>
            simp only [hbb] at hm
            by_cases hK : piece.2 ≠ PieceType.K
            · rw [if_pos hK] at hm
              rcases List.mem_singleton.mp hm with hm1
              subst hm1
              intro q hq
              rw [isEnemyPiece] at hen
              rw [hbb] at hen
              simp only [decide_eq_true_eq] at hen
              have : q = piece := by
                rw [hq] at hbb
                injection hbb
              subst this
              exact ⟨hen, hK⟩
            · rw [if_neg hK] at hm
              simp at hm
        · rw [if_neg hen] at hm
          simp at hm
    · rw [if_neg hob] at hm
      simp at hm

lemma getLinearMoves_safe (b : Board) (row col : Int) (color : Color)
    (dirs : List Pos) :
    ∀ m ∈ getLinearMoves b row col color dirs, safeDest b color m := by
  induction dirs with
  | nil => intro m hm; simp [getLinearMoves] at hm
  | cons d rest ih =>
    intro m hm
    rw [getLinearMoves, List.foldr_cons] at hm
    rcases List.mem_append.mp hm with hm1 | hm2
    · exact linearScan_safe b color 8 _ _ _ _ m hm1
    · exact ih m hm2

lemma stepTargets_safe (b : Board) (row col : Int) (color : Color)
    (offsets : List Pos) :
    ∀ m ∈ stepTargets b row col color offsets, safeDest b color m := by
  intro m hm
  rw [stepTargets] at hm
  obtain ⟨d, _, hd⟩ := List.mem_filterMap.mp hm
  by_cases hob : isOnBoard (row + d.1) (col + d.2)
  · rw [if_pos hob] at hd
    by_cases hemp : isEmptyAt b (row + d.1, col + d.2)
    · rw [if_pos hemp] at hd
      injection hd with hd
      subst hd
      intro q hq
      rw [isEmptyAt] at hemp
      simp only [decide_eq_true_eq] at hemp
      rw [hemp] at hq
      exact absurd hq (by simp)
    · rw [if_neg hemp] at hd
      cases hbb : bGet b (row + d.1) (col + d.2) with
      | none => rw [hbb] at hd; exact absurd hd (by simp)
      | some piece =>
        simp only [hbb] at hd
        by_cases hcond : piece.1 ≠ color ∧ piece.2 ≠ PieceType.K
        · rw [if_pos hcond] at hd
          injection hd with hd
          subst hd
          intro q hq
          have : q = piece := by
            rw [hq] at hbb
            injection hbb
          subst this
          exact hcond
        · rw [if_neg hcond] at hd
          exact absurd hd (by simp)
  · rw [if_neg hob] at hd
    exact absurd hd (by simp)

/-- The live en-passant target square (expiry equal to the current ply), when
there is one, is unoccupied.  True of every state the engine itself produces;
`import_fen` can violate it. -/
def epTargetFree (g : ChessGame) : Bool :=
  match g.en_passant_target, g.en_passant_expires with
  | some t, some x =>
    if x = g.turn_counter then (bGet g.board t.1 t.2) = none else true
  | some _, none => true
  | none, _ => true

lemma pawnForwards_safe (g : ChessGame) (row col : Int) (color : Color) :
    ∀ m ∈ pawnForwards g row col color, safeDest g.board color m := by
  intro m hm
  rw [pawnForwards] at hm
  simp only at hm
  by_cases h1 : (isOnBoard (row + (if color = .white then (-1 : Int) else 1)) col &&
      isEmptyAt g.board (row + (if color = .white then (-1 : Int) else 1), col)) = true
  · rw [if_pos h1] at hm
    rcases List.mem_cons.mp hm with hm1 | hm2
    · subst hm1
      intro q hq
      have h2 := (Bool.and_eq_true _ _).mp h1
      rw [isEmptyAt] at h2
      have h3 := h2.2
      simp only [decide_eq_true_eq] at h3
      rw [h3] at hq
      exact absurd hq (by simp)
    · by_cases h4 : (row = (if color = .white then (6 : Int) else 1) &&
          isEmptyAt g.board (row + 2 * (if color = .white then (-1 : Int) else 1), col)) = true
      · rw [if_pos h4] at hm2
        rcases List.mem_singleton.mp hm2 with hm3
        subst hm3
        intro q hq
        have h5 := ((Bool.and_eq_true _ _).mp h4).2
        rw [isEmptyAt] at h5
        simp only [decide_eq_true_eq] at h5
        rw [h5] at hq
        exact absurd hq (by simp)
      · rw [if_neg h4] at hm2
        simp at hm2
  · rw [if_neg h1] at hm
    simp at hm

lemma pawnDiagBlock_safe (g : ChessGame) (color : Color) (t : Pos)
    (hep : epTargetFree g = true) :
    ∀ m ∈ pawnDiagBlock g color t, safeDest g.board color m := by
  intro m hm
  rw [pawnDiagBlock] at hm
  rcases List.mem_append.mp hm with hcap | hept
  · by_cases hen : isEnemyPiece g.board t color
    · rw [if_pos hen] at hcap
      cases hbb : bGet g.board t.1 t.2 with
      | none =>
        rw [isEnemyPiece, hbb] at hen
        exact absurd hen (by simp)
      | some piece =>
        simp only [hbb] at hcap
        by_cases hK : piece.2 ≠ PieceType.K
        · rw [if_pos hK] at hcap
          have hm1 : m = t := List.mem_singleton.mp hcap
          intro q hq
          rw [hm1] at hq
          rw [isEnemyPiece, hbb] at hen
          simp only [decide_eq_true_eq] at hen
          have : q = piece := by
            rw [hq] at hbb
            injection hbb
          subst this
          exact ⟨hen, hK⟩
        · rw [if_neg hK] at hcap
          simp at hcap
    · rw [if_neg hen] at hcap
      simp at hcap
  · by_cases hepm : epMatches g t
    · rw [if_pos hepm] at hept
      have hm1 : m = t := List.mem_singleton.mp hept
      intro q hq
      rw [hm1] at hq
      rw [epMatches] at hepm
      rw [epTargetFree] at hep
      cases het : g.en_passant_target with
      | none => rw [het] at hepm; simp at hepm
      | some t0 =>
        cases hex : g.en_passant_expires with
        | none => simp only [het, hex] at hepm; exact absurd hepm (by simp)
        | some x =>
          simp only [het, hex] at hepm hep
          have h1 := (Bool.and_eq_true _ _).mp hepm
          have hx : x = g.turn_counter := by
            have := h1.1; simpa using this
          have htt : t = t0 := by
            have := h1.2; simpa using this
          rw [if_pos hx] at hep
          simp only [decide_eq_true_eq] at hep
          rw [htt, hep] at hq
          exact absurd hq (by simp)
    · rw [if_neg hepm] at hept
      simp at hept

lemma pawnCandidates_safe (g : ChessGame) (row col : Int) (color : Color)
    (hep : epTargetFree g = true) :
    ∀ m ∈ pawnCandidates g row col color, safeDest g.board color m := by
  intro m hm
  rw [pawnCandidates] at hm
  simp only [List.foldr_cons, List.foldr_nil] at hm
  rcases List.mem_append.mp hm with hfwd | hdiag
  · exact pawnForwards_safe g row col color m hfwd
  · set dir : Int := (if color = Color.white then (-1 : Int) else 1) with hdir
    by_cases h1 : isOnBoard (row + dir) (col + -1) = true
    · rw [if_pos h1] at hdiag
      rcases List.mem_append.mp hdiag with hb1 | hb2
      · exact pawnDiagBlock_safe g color _ hep m hb1
      · by_cases h2 : isOnBoard (row + dir) (col + 1) = true
        · rw [if_pos h2] at hb2
          rcases List.mem_append.mp hb2 with hb3 | hb4
          · exact pawnDiagBlock_safe g color _ hep m hb3
          · simp at hb4
        · rw [if_neg h2] at hb2
          simp at hb2
    · rw [if_neg h1] at hdiag
      by_cases h2 : isOnBoard (row + dir) (col + 1) = true
      · rw [if_pos h2] at hdiag
        rcases List.mem_append.mp hdiag with hb1 | hb2
        · exact pawnDiagBlock_safe g color _ hep m hb1
        · simp at hb2
      · rw [if_neg h2] at hdiag
        simp at hdiag

lemma canCastleKingside_king_and_empty (g : ChessGame) (color : Color)
    (h : canCastleKingside g color = true) :
    bGet g.board (if color = Color.white then (7 : Int) else 0) 4 = some (color, .K) ∧
    bGet g.board (if color = Color.white then (7 : Int) else 0) 6 = none := by
  cases color with
  | white =>
    simp only [canCastleKingside, if_pos rfl, reduceIte] at h ⊢
    split_ifs at h with h1 h2 h3 h4 h5 h6
    push_neg at h2
    simp only [Bool.or_eq_true, Bool.not_eq_true', not_or, Bool.not_eq_false] at h3
    refine ⟨h2.1, ?_⟩
    have h6' := h3.2
    rw [isEmptyAt] at h6'
    simpa using h6'
  | black =>
    simp only [canCastleKingside, reduceCtorEq, reduceIte] at h ⊢
    split_ifs at h with h1 h2 h3 h4 h5 h6
    push_neg at h2
    simp only [Bool.or_eq_true, Bool.not_eq_true', not_or, Bool.not_eq_false] at h3
    refine ⟨h2.1, ?_⟩
    have h6' := h3.2
    rw [isEmptyAt] at h6'
    simpa using h6'

lemma canCastleQueenside_king_and_empty (g : ChessGame) (color : Color)
    (h : canCastleQueenside g color = true) :
    bGet g.board (if color = Color.white then (7 : Int) else 0) 4 = some (color, .K) ∧
    bGet g.board (if color = Color.white then (7 : Int) else 0) 2 = none := by
  cases color with
  | white =>
    simp only [canCastleQueenside, if_pos rfl, reduceIte] at h ⊢
    split_ifs at h with h1 h2 h3 h4 h5 h6
    push_neg at h2
    simp only [Bool.or_eq_true, Bool.not_eq_true', not_or, Bool.not_eq_false] at h3
    refine ⟨h2.1, ?_⟩
    have h6' := h3.1.2
    rw [isEmptyAt] at h6'
    simpa using h6'
  | black =>
    simp only [canCastleQueenside, reduceCtorEq, reduceIte] at h ⊢
    split_ifs at h with h1 h2 h3 h4 h5 h6
    push_neg at h2
    simp only [Bool.or_eq_true, Bool.not_eq_true', not_or, Bool.not_eq_false] at h3
    refine ⟨h2.1, ?_⟩
    have h6' := h3.1.2
    rw [isEmptyAt] at h6'
    simpa using h6'

lemma castle_candidate_safe (g : ChessGame) (r c : Int) (color : Color)
    (hpiece : bGet g.board r c = some (color, .K))
    (hking : ∀ p ∈ squares, ∀ q ∈ squares,
      bGet g.board p.1 p.2 = some (color, .K) →
      bGet g.board q.1 q.2 = some (color, .K) → p = q)
    (hk4 : bGet g.board (if color = Color.white then (7 : Int) else 0) 4 = some (color, .K)) :
    r = (if color = Color.white then (7 : Int) else 0) ∧ c = 4 := by
  have hhome : ((r, c) : Pos) ∈ squares := by
    rw [mem_squares]
    exact bGet_some_bounds hpiece
  have hhome4 : (((if color = Color.white then (7 : Int) else 0), (4 : Int)) : Pos) ∈ squares := by
    rw [mem_squares]
    cases color <;> simp
  have heq := hking (r, c) hhome _ hhome4 hpiece hk4
  constructor
  · have := congrArg Prod.fst heq; simpa using this
  · have := congrArg Prod.snd heq; simpa using this

lemma candidateMoves_safe (g : ChessGame) (r c : Int) (color : Color)
    (pt : PieceType)
    (hpiece : bGet g.board r c = some (color, pt))
    (hking : ∀ p ∈ squares, ∀ q ∈ squares,
      bGet g.board p.1 p.2 = some (color, .K) →
      bGet g.board q.1 q.2 = some (color, .K) → p = q)
    (hep : epTargetFree g = true) :
    ∀ m ∈ candidateMoves g r c, safeDest g.board color m := by
  intro m hm
  rw [candidateMoves] at hm
  simp only [hpiece] at hm
  cases pt with
  | P => exact pawnCandidates_safe g r c color hep m hm
  | R => exact getLinearMoves_safe _ _ _ _ _ m hm
  | N => exact stepTargets_safe _ _ _ _ _ m hm
  | B => exact getLinearMoves_safe _ _ _ _ _ m hm
  | Q => exact getLinearMoves_safe _ _ _ _ _ m hm
  | K =>
    rcases List.mem_append.mp hm with hm1 | hmq
    · rcases List.mem_append.mp hm1 with hs | hcK
      · exact stepTargets_safe _ _ _ _ _ m hs
      · by_cases hck : canCastleKingside g color = true
        · rw [if_pos hck] at hcK
          have hm3 : m = (r, c + 2) := List.mem_singleton.mp hcK
          obtain ⟨hk4, he6⟩ := canCastleKingside_king_and_empty g color hck
          obtain ⟨hr, hc4⟩ := castle_candidate_safe g r c color hpiece hking hk4
          intro q hq
          rw [hm3] at hq
          simp only at hq
          rw [hr, hc4] at hq
          norm_num at hq
          rw [he6] at hq
          exact absurd hq (by simp)
        · rw [if_neg hck] at hcK
          simp at hcK
    · by_cases hcq : canCastleQueenside g color = true
      · rw [if_pos hcq] at hmq
        have hm3 : m = (r, c - 2) := List.mem_singleton.mp hmq
        obtain ⟨hk4, he2⟩ := canCastleQueenside_king_and_empty g color hcq
        obtain ⟨hr, hc4⟩ := castle_candidate_safe g r c color hpiece hking hk4
        intro q hq
        rw [hm3] at hq
        simp only at hq
        rw [hr, hc4] at hq
        norm_num at hq
        rw [he2] at hq
        exact absurd hq (by simp)
      · rw [if_neg hcq] at hmq
        simp at hmq

/-! ### C6 -/

/-- Black pawn d4, black pawn e3, kings a1/a8, black to move, en-passant field
`e3` although e3 is occupied by black's own pawn. -/
def c6fen : List Char := "k7/8/8/8/3p4/4p3/8/K7 b - e3 0 1".toList

def c6pos : ChessGame := (fenImport resetGame c6fen).1

/-- Counterexample to C6: `c6pos` is obtained by `decode` (it succeeds), yet
the legality-filtered move set of the black pawn on d4 contains e3 = (5,4),
a square occupied by a friendly black pawn — the en-passant branch appends
the decoded target without checking its occupancy. -/
theorem C6_counterexample_friendly_ep_square :
    (fenImport resetGame c6fen).2 = none ∧
    bGet c6pos.board 4 3 = some (.black, .P) ∧
    bGet c6pos.board 5 4 = some (.black, .P) ∧
    ((5 : Int), (4 : Int)) ∈ getValidMoves c6pos 4 3 := by
  refine ⟨by decide, by decide, by decide, by decide⟩

/-- C6 amended: for every state in which the moving piece's color has at most
one king on the board and any live en-passant target square is unoccupied
(both hold for every state the engine itself produces; `decode` can break
them), the legality-filtered move set of an occupied square contains no
square holding a piece of the mover's color and never a square holding a
king — in particular never the opposing king's square. -/
theorem C6_amended_no_friendly_no_king_capture (g : ChessGame) (r c : Int)
    (color : Color) (pt : PieceType)
    (hpiece : bGet g.board r c = some (color, pt))
    (hking : ∀ p ∈ squares, ∀ q ∈ squares,
      bGet g.board p.1 p.2 = some (color, .K) →
      bGet g.board q.1 q.2 = some (color, .K) → p = q)
    (hep : epTargetFree g = true) :
    ∀ m ∈ getValidMoves g r c, ∀ q : Piece, bGet g.board m.1 m.2 = some q →
      q.1 ≠ color ∧ q.2 ≠ PieceType.K := by
  intro m hm
  rw [getValidMoves] at hm
  simp only [hpiece] at hm
  have hm2 : m ∈ candidateMoves g r c := (List.mem_filter.mp hm).1
  exact candidateMoves_safe g r c color pt hpiece hking hep m hm2

/-- Witness for the amended C6: in `c5pos` (one king per side, no en-passant
state) the white queen's move set contains h1, and the occupant of h1 is an
enemy non-king piece as the theorem asserts. -/
theorem C6_amended_witness :
    ((7 : Int), (7 : Int)) ∈ getValidMoves c5pos 6 7 ∧
    bGet c5pos.board 7 7 = some (.black, .R) ∧
    (Color.black ≠ Color.white ∧ PieceType.R ≠ PieceType.K) := by
  refine ⟨by decide, by decide, ?_⟩
  exact C6_amended_no_friendly_no_king_capture c5pos 6 7 Color.white PieceType.Q
    (by decide) (by decide) (by decide) (7, 7) (by decide) (Color.black, PieceType.R)
    (by decide)

/-! ### C7 lemmas: the en-passant window through the move pipeline -/

lemma bGet_bSet_none (b : Board) (r c : Int) : bGet (bSet b r c none) r c = none := by
  rw [bGet]
  split_ifs with h
  · simp only [bSet]
    rw [if_pos]
    constructor <;> simp <;> omega
  · rfl

lemma bGet_bSet_ne (b : Board) (r c : Int) (v : Option Piece) (r2 c2 : Int)
    (h : ¬(r2 = r ∧ c2 = c)) : bGet (bSet b r c v) r2 c2 = bGet b r2 c2 := by
  rw [bGet, bGet]
  split_ifs with hb
  · simp only [bSet]
    rw [if_neg]
    intro hcon
    apply h
    obtain ⟨h1, h2⟩ := hcon
    constructor <;> omega
  · rfl

lemma movePiece_board (g : ChessGame) (s e : Pos) (piece : Piece)
    (hb : bGet g.board s.1 s.2 = some piece) :
    (movePiece g s e).board = boardAfter g piece s e := by
  simp [movePiece, hb]

lemma movePiece_ep_double (g : ChessGame) (s e : Pos) (piece : Piece)
    (hb : bGet g.board s.1 s.2 = some piece)
    (hdp : isDoublePush piece s e) :
    (movePiece g s e).en_passant_target = some (Int.fdiv (s.1 + e.1) 2, s.2) ∧
    (movePiece g s e).en_passant_expires = some (g.turn_counter + 1) := by
  constructor <;> simp [movePiece, hb, hdp]

lemma movePiece_ep_keep (g : ChessGame) (s e : Pos) (piece : Piece)
    (hb : bGet g.board s.1 s.2 = some piece)
    (hnd : ¬ isDoublePush piece s e) :
    (movePiece g s e).en_passant_target = g.en_passant_target ∧
    (movePiece g s e).en_passant_expires = g.en_passant_expires := by
  constructor <;> simp [movePiece, hb, hnd]

lemma switchPlayer_ep_keep (g : ChessGame) (x : Int)
    (hx : g.en_passant_expires = some x) (hge : ¬ x < g.turn_counter + 1) :
    (switchPlayer g).en_passant_target = g.en_passant_target ∧
    (switchPlayer g).en_passant_expires = g.en_passant_expires := by
  cases hc : g.current_player <;>
    constructor <;> simp [switchPlayer, hx, hc, hge]

lemma switchPlayer_ep_clear (g : ChessGame) (x : Int)
    (hx : g.en_passant_expires = some x) (hlt : x < g.turn_counter + 1) :
    (switchPlayer g).en_passant_target = none ∧
    (switchPlayer g).en_passant_expires = none := by
  cases hc : g.current_player <;>
    constructor <;> simp [switchPlayer, hx, hc, hlt]

lemma epMatches_of (g : ChessGame) (t : Pos) (x : Int)
    (ht : g.en_passant_target = some t) (hx : g.en_passant_expires = some x)
    (hturn : x = g.turn_counter) : epMatches g t = true := by
  simp [epMatches, ht, hx, hturn]

/-- Committed double pawn push: the en-passant window of the resulting state
is the skipped square with expiry equal to the (already incremented) ply
counter. -/
lemma applyMove_double_push_ep (g0 g1 : ChessGame) (res1 : MoveResult)
    (r1 cc r2 : Int) (colr : Color)
    (hP : bGet g0.board r1 cc = some (colr, .P))
    (hdp : applyMove g0 (r1, cc) (r2, cc) = (g1, Except.ok res1))
    (habs : (r2 - r1).natAbs = 2) :
    g1.en_passant_target = some (Int.fdiv (r1 + r2) 2, cc) ∧
    g1.en_passant_expires = some g1.turn_counter ∧
    g1.turn_counter = g0.turn_counter + 1 := by
  obtain ⟨piece0, hgo, hb, hc, hm, hcm⟩ :=
    applyMove_ok_decomp g0 (r1, cc) (r2, cc) g1 res1 hdp
  have hb2 : bGet g0.board r1 cc = some piece0 := hb
  rw [hP] at hb2
  have hpe : (colr, PieceType.P) = piece0 := by injection hb2
  obtain ⟨gmid, hshape, hcur, hbd, hcr, hgo2, htc, hept, hepe⟩ :=
    commitMove_fst_shape g0 (r1, cc) (r2, cc) piece0
  have hg1 : g1 = updateStatus (switchPlayer gmid) := by
    have h1 := congrArg Prod.fst hcm
    simp only [hshape] at h1
    exact h1.symm
  have hdpp : isDoublePush piece0 (r1, cc) (r2, cc) := by
    rw [← hpe]
    exact ⟨rfl, habs⟩
  obtain ⟨hmt, hme⟩ := movePiece_ep_double g0 (r1, cc) (r2, cc) piece0 hb hdpp
  have hkeep := switchPlayer_ep_keep gmid (g0.turn_counter + 1)
    (by rw [hepe, hme]) (by rw [htc]; omega)
  refine ⟨?_, ?_, ?_⟩
  · rw [hg1, updateStatus_ep_target, hkeep.1, hept, hmt]
  · rw [hg1, updateStatus_ep_expires, hkeep.2, hepe, hme, updateStatus_turn,
      switchPlayer_turn, htc]
  · rw [hg1, updateStatus_turn, switchPlayer_turn, htc]

lemma pawnForwards_mem (g : ChessGame) (row col : Int) (color : Color) (m : Pos)
    (h : m ∈ pawnForwards g row col color) :
    m = (row + (if color = Color.white then (-1 : Int) else 1), col) ∨
    (row = (if color = Color.white then (6 : Int) else 1) ∧
      m = (row + 2 * (if color = Color.white then (-1 : Int) else 1), col)) := by
  cases color with
  | white =>
    rw [pawnForwards] at h
    simp only [if_pos rfl, reduceIte] at h ⊢
    split_ifs at h with h1 h2
    · rcases List.mem_cons.mp h with hm1 | hm2
      · exact Or.inl hm1
      · right
        refine ⟨?_, List.mem_singleton.mp hm2⟩
        have h3 := ((Bool.and_eq_true _ _).mp h2).1
        simpa using h3
    · rcases List.mem_cons.mp h with hm1 | hm2
      · exact Or.inl hm1
      · simp at hm2
    · simp at h
  | black =>
    rw [pawnForwards] at h
    simp only [reduceCtorEq, reduceIte] at h ⊢
    split_ifs at h with h1 h2
    · rcases List.mem_cons.mp h with hm1 | hm2
      · exact Or.inl hm1
      · right
        refine ⟨?_, List.mem_singleton.mp hm2⟩
        have h3 := ((Bool.and_eq_true _ _).mp h2).1
        simpa using h3
    · rcases List.mem_cons.mp h with hm1 | hm2
      · exact Or.inl hm1
      · simp at hm2
    · simp at h

lemma pawnDiagBlock_mem (g : ChessGame) (color : Color) (t : Pos) (m : Pos)
    (h : m ∈ pawnDiagBlock g color t) : m = t := by
  rw [pawnDiagBlock] at h
  rcases List.mem_append.mp h with h1 | h2
  · by_cases hen : isEnemyPiece g.board t color = true
    · rw [if_pos hen] at h1
      cases hbb : bGet g.board t.1 t.2 with
      | none =>
        simp only [hbb] at h1
        exact absurd h1 (by simp)
      | some piece =>
        simp only [hbb] at h1
        by_cases hK : piece.2 ≠ PieceType.K
        · rw [if_pos hK] at h1
          exact List.mem_singleton.mp h1
        · rw [if_neg hK] at h1
          exact absurd h1 (by simp)
    · rw [if_neg hen] at h1
      exact absurd h1 (by simp)
  · by_cases hepm : epMatches g t = true
    · rw [if_pos hepm] at h2
      exact List.mem_singleton.mp h2
    · rw [if_neg hepm] at h2
      exact absurd h2 (by simp)

lemma pawnDiagBlock_occupied (g : ChessGame) (color : Color) (t : Pos)
    (hnone : g.en_passant_target = none) :
    ∀ m ∈ pawnDiagBlock g color t, bGet g.board m.1 m.2 ≠ none := by
  intro m hm
  have hmt : m = t := pawnDiagBlock_mem g color t m hm
  subst hmt
  rw [pawnDiagBlock] at hm
  rcases List.mem_append.mp hm with h1 | h2
  · by_cases hen : isEnemyPiece g.board m color = true
    · cases hbb : bGet g.board m.1 m.2 with
      | none =>
        rw [isEnemyPiece, hbb] at hen
        exact absurd hen (by simp)
      | some piece => simp [hbb]
    · rw [if_neg hen] at h1
      exact absurd h1 (by simp)
  · by_cases hepm : epMatches g m = true
    · rw [epMatches, hnone] at hepm
      exact absurd hepm (by simp)
    · rw [if_neg hepm] at h2
      exact absurd h2 (by simp)

/-- Membership of the pawn candidate list splits into the forward part and the
two diagonal targets. -/
lemma pawnCandidates_mem_cases (g : ChessGame) (row col : Int) (color : Color)
    (m : Pos) (h : m ∈ pawnCandidates g row col color) :
    m ∈ pawnForwards g row col color ∨
    m = (row + (if color = Color.white then (-1 : Int) else 1), col + -1) ∨
    m = (row + (if color = Color.white then (-1 : Int) else 1), col + 1) := by
  rw [pawnCandidates] at h
  simp only [List.foldr_cons, List.foldr_nil] at h
  rcases List.mem_append.mp h with hf | hd
  · exact Or.inl hf
  · set dir : Int := (if color = Color.white then (-1 : Int) else 1) with hdir
    by_cases h1 : isOnBoard (row + dir) (col + -1) = true
    · rw [if_pos h1] at hd
      rcases List.mem_append.mp hd with hb1 | hb2
      · exact Or.inr (Or.inl (pawnDiagBlock_mem g color _ m hb1))
      · by_cases h2 : isOnBoard (row + dir) (col + 1) = true
        · rw [if_pos h2] at hb2
          rcases List.mem_append.mp hb2 with hb3 | hb4
          · exact Or.inr (Or.inr (pawnDiagBlock_mem g color _ m hb3))
          · simp at hb4
        · rw [if_neg h2] at hb2
          simp at hb2
    · rw [if_neg h1] at hd
      by_cases h2 : isOnBoard (row + dir) (col + 1) = true
      · rw [if_pos h2] at hd
        rcases List.mem_append.mp hd with hb1 | hb2
        · exact Or.inr (Or.inr (pawnDiagBlock_mem g color _ m hb1))
        · simp at hb2
      · rw [if_neg h2] at hd
        simp at hd

/-- The en-passant destination is proposed by the pawn's diagonal loop. -/
lemma pawn_ep_candidate_mem (g : ChessGame) (row col : Int) (color : Color)
    (t : Pos) (hob : isOnBoard t.1 t.2 = true)
    (ht : t = (row + (if color = Color.white then (-1 : Int) else 1), col + -1) ∨
          t = (row + (if color = Color.white then (-1 : Int) else 1), col + 1))
    (hepm : epMatches g t = true) :
    t ∈ pawnCandidates g row col color := by
  have hblock : t ∈ pawnDiagBlock g color t := by
    rw [pawnDiagBlock]
    apply List.mem_append_right
    rw [if_pos hepm]
    exact List.mem_singleton.mpr rfl
  rw [pawnCandidates]
  simp only [List.foldr_cons, List.foldr_nil]
  apply List.mem_append_right
  set dir : Int := (if color = Color.white then (-1 : Int) else 1) with hdir
  rcases ht with h1 | h1
  · subst h1
    rw [if_pos (show isOnBoard (row + dir) (col + -1) = true from hob)]
    exact List.mem_append_left _ hblock
  · subst h1
    by_cases h2 : isOnBoard (row + dir) (col + -1) = true
    · rw [if_pos h2]
      apply List.mem_append_right
      rw [if_pos (show isOnBoard (row + dir) (col + 1) = true from hob)]
      exact List.mem_append_left _ hblock
    · rw [if_neg h2]
      rw [if_pos (show isOnBoard (row + dir) (col + 1) = true from hob)]
      exact List.mem_append_left _ hblock

/-- A committed double pawn push comes off the home rank: white from row 6 to
row 4, black from row 1 to row 3. -/
lemma doublePush_rows (g : ChessGame) (r1 cc r2 : Int) (colr : Color)
    (g1 : ChessGame) (res : MoveResult)
    (hP : bGet g.board r1 cc = some (colr, .P))
    (hdp : applyMove g (r1, cc) (r2, cc) = (g1, Except.ok res))
    (habs : (r2 - r1).natAbs = 2) :
    (colr = .white ∧ r1 = 6 ∧ r2 = 4) ∨ (colr = .black ∧ r1 = 1 ∧ r2 = 3) := by
  obtain ⟨piece0, hgo, hb, hc, hm, hcm⟩ :=
    applyMove_ok_decomp g (r1, cc) (r2, cc) g1 res hdp
  simp only at hm
  rw [getValidMoves] at hm
  simp only [hP] at hm
  have hcand : ((r2, cc) : Pos) ∈ candidateMoves g r1 cc := (List.mem_filter.mp hm).1
  rw [candidateMoves] at hcand
  simp only [hP] at hcand
  rcases pawnCandidates_mem_cases g r1 cc colr (r2, cc) hcand with hf | hdg | hdg
  · rcases pawnForwards_mem g r1 cc colr _ hf with h1 | ⟨hrow, h2⟩
    · cases hcw : colr <;> rw [hcw] at h1 <;> simp only [reduceIte, reduceCtorEq] at h1 <;>
        [skip; skip] <;>
        (have hr2 : r2 = r1 + (-1) ∨ r2 = r1 + 1 := by
          first
          | exact Or.inl (by have := congrArg Prod.fst h1; simpa using this)
          | exact Or.inr (by have := congrArg Prod.fst h1; simpa using this)) <;>
        omega
    · cases hcw : colr with
      | white =>
        rw [hcw] at hrow h2
        simp only [reduceIte] at hrow h2
        have hr2 : r2 = r1 + 2 * (-1) := by
          have := congrArg Prod.fst h2; simpa using this
        exact Or.inl ⟨rfl, hrow, by omega⟩
      | black =>
        rw [hcw] at hrow h2
        simp only [reduceCtorEq, reduceIte] at hrow h2
        have hr2 : r2 = r1 + 2 * 1 := by
          have := congrArg Prod.fst h2; simpa using this
        exact Or.inr ⟨rfl, hrow, by omega⟩
  · have := congrArg Prod.snd hdg
    simp only at this
    omega
  · have := congrArg Prod.snd hdg
    simp only at this
    omega

/-- The board of the committed state is the board `_move_piece` produced. -/
lemma applyMove_board (g g' : ChessGame) (s e : Pos) (res : MoveResult)
    (h : applyMove g s e = (g', Except.ok res)) :
    g'.board = (movePiece g s e).board := by
  obtain ⟨piece0, hgo, hb, hc, hm, hcm⟩ := applyMove_ok_decomp g s e g' res h
  obtain ⟨gmid, hshape, _, hbd, _, _, _, _, _⟩ := commitMove_fst_shape g s e piece0
  have hg' : g' = updateStatus (switchPlayer gmid) := by
    have h1 := congrArg Prod.fst hcm
    simp only [hshape] at h1
    exact h1.symm
  rw [hg', updateStatus_board, switchPlayer_board, hbd]

/-- The en-passant capture clears the jumped pawn's square `(start row, end
column)`. -/
lemma epCapture_removes_jumped (g : ChessGame) (pr pc : Int) (t : Pos)
    (color : Color) (hepm : epMatches g t = true) (hrne : t.1 ≠ pr) :
    bGet (boardAfter g (color, .P) (pr, pc) t) pr t.2 = none := by
  rw [boardAfter]
  simp only [hepm, Bool.and_true, decide_eq_true_eq, reduceCtorEq, reduceIte,
    false_and, if_false, if_true]
  by_cases hpromo : t.1 = 0 ∨ t.1 = 7
  · rw [if_pos (by exact ⟨trivial, hpromo⟩)]
    rw [bGet_bSet_ne _ _ _ _ _ _ (by intro hcon; exact hrne hcon.1.symm)]
    exact bGet_bSet_none _ _ _
  · rw [if_neg (by intro hcon; exact hpromo hcon.2)]
    exact bGet_bSet_none _ _ _

/-- Clearing: a committed move that is not a double pawn push, from a state
whose en-passant expiry is at most the current ply, leaves no window. -/
lemma applyMove_clears_ep (g g' : ChessGame) (s e : Pos) (res : MoveResult)
    (p3 : Piece) (x : Int)
    (h : applyMove g s e = (g', Except.ok res))
    (hp3 : bGet g.board s.1 s.2 = some p3)
    (hnd : ¬ isDoublePush p3 s e)
    (hx : g.en_passant_expires = some x) (hxle : x ≤ g.turn_counter) :
    g'.en_passant_target = none ∧ g'.en_passant_expires = none := by
  obtain ⟨piece0, hgo, hb, hc, hm, hcm⟩ := applyMove_ok_decomp g s e g' res h
  have hb2 : bGet g.board s.1 s.2 = some piece0 := hb
  rw [hp3] at hb2
  have hpe : p3 = piece0 := by injection hb2
  subst hpe
  obtain ⟨gmid, hshape, _, _, _, _, htc, hept, hepe⟩ := commitMove_fst_shape g s e p3
  have hg' : g' = updateStatus (switchPlayer gmid) := by
    have h1 := congrArg Prod.fst hcm
    simp only [hshape] at h1
    exact h1.symm
  obtain ⟨hmt, hme⟩ := movePiece_ep_keep g s e p3 hb hnd
  have hclear := switchPlayer_ep_clear gmid x (by rw [hepe, hme, hx]) (by rw [htc]; omega)
  constructor
  · rw [hg', updateStatus_ep_target, hclear.1]
  · rw [hg', updateStatus_ep_expires, hclear.2]

/-- The en-passant capture passes the legality filter when the simulated
position leaves the capturer's king safe. -/
lemma ep_capture_in_moves (g : ChessGame) (pr pc : Int) (cq : Color) (t : Pos)
    (hpawn : bGet g.board pr pc = some (cq, .P))
    (hob : isOnBoard t.1 t.2 = true)
    (ht : t = (pr + (if cq = Color.white then (-1 : Int) else 1), pc + -1) ∨
          t = (pr + (if cq = Color.white then (-1 : Int) else 1), pc + 1))
    (hepm : epMatches g t = true)
    (hsafe : isInCheckForBoard (simulateMove g (pr, pc) t) cq = false) :
    t ∈ getValidMoves g pr pc := by
  rw [getValidMoves]
  simp only [hpawn]
  apply List.mem_filter.mpr
  constructor
  · rw [candidateMoves]
    simp only [hpawn]
    exact pawn_ep_candidate_mem g pr pc cq t hob ht hepm
  · simp [hsafe]

/-- With no en-passant target on record, a pawn's legality-filtered move to a
different column is necessarily onto an occupied square. -/
lemma pawn_diag_needs_occupant (g : ChessGame) (qr qc : Int) (cq : Color)
    (hnone : g.en_passant_target = none)
    (hq : bGet g.board qr qc = some (cq, .P)) :
    ∀ m ∈ getValidMoves g qr qc, m.2 ≠ qc → bGet g.board m.1 m.2 ≠ none := by
  intro m hm hcol
  rw [getValidMoves] at hm
  simp only [hq] at hm
  have hcand : m ∈ candidateMoves g qr qc := (List.mem_filter.mp hm).1
  rw [candidateMoves] at hcand
  simp only [hq] at hcand
  rw [pawnCandidates] at hcand
  simp only [List.foldr_cons, List.foldr_nil] at hcand
  rcases List.mem_append.mp hcand with hf | hd
  · rcases pawnForwards_mem g qr qc cq m hf with h1 | ⟨_, h1⟩ <;>
      exact absurd (by have := congrArg Prod.snd h1; simpa using this) hcol
  · set dir : Int := (if cq = Color.white then (-1 : Int) else 1) with hdir
    by_cases h1 : isOnBoard (qr + dir) (qc + -1) = true
    · rw [if_pos h1] at hd
      rcases List.mem_append.mp hd with hb1 | hb2
      · exact pawnDiagBlock_occupied g cq _ hnone m hb1
      · by_cases h2 : isOnBoard (qr + dir) (qc + 1) = true
        · rw [if_pos h2] at hb2
          rcases List.mem_append.mp hb2 with hb3 | hb4
          · exact pawnDiagBlock_occupied g cq _ hnone m hb3
          · simp at hb4
        · rw [if_neg h2] at hb2
          simp at hb2
    · rw [if_neg h1] at hd
      by_cases h2 : isOnBoard (qr + dir) (qc + 1) = true
      · rw [if_pos h2] at hd
        rcases List.mem_append.mp hd with hb1 | hb2
        · exact pawnDiagBlock_occupied g cq _ hnone m hb1
        · simp at hb2
      · rw [if_neg h2] at hd
        simp at hd

/-! ### C7 -/

/-- C7 amended: a committed pawn double push opens the en-passant window (the
skipped square, expiring on the current ply); an adjacent enemy pawn's move
set contains that square *provided the simulated capture leaves the
capturer's king safe* (a pinned pawn loses the capture to the legality
filter); applying the capture clears the jumped pawn's square; after one
further committed move that is not itself a double pawn push the window is
cleared (a second double push instead replaces it), and with no target on
record a pawn can move diagonally only onto an occupied square, so the
en-passant capture is gone from every move set. -/
theorem C7_amended_en_passant_window (g0 g1 g2 g3 : ChessGame)
    (res1 res2 res3 : MoveResult)
    (r1 cc r2 pr pc s3r s3c e3r e3c : Int) (colr : Color) (p3 : Piece)
    (hP : bGet g0.board r1 cc = some (colr, .P))
    (hdp : applyMove g0 (r1, cc) (r2, cc) = (g1, Except.ok res1))
    (habs : (r2 - r1).natAbs = 2)
    (hpawn : bGet g1.board pr pc = some (g1.current_player, .P))
    (hadj : pc = cc - 1 ∨ pc = cc + 1)
    (hrow : pr + (if g1.current_player = Color.white then (-1 : Int) else 1)
      = Int.fdiv (r1 + r2) 2)
    (hsafe : isInCheckForBoard
      (simulateMove g1 (pr, pc) (Int.fdiv (r1 + r2) 2, cc))
      g1.current_player = false)
    (hcap : applyMove g1 (pr, pc) (Int.fdiv (r1 + r2) 2, cc) =
      (g2, Except.ok res2))
    (halt : applyMove g1 (s3r, s3c) (e3r, e3c) = (g3, Except.ok res3))
    (hp3 : bGet g1.board s3r s3c = some p3)
    (hnd : p3.2 ≠ .P ∨ (e3r - s3r).natAbs ≠ 2) :
    g1.en_passant_target = some (Int.fdiv (r1 + r2) 2, cc) ∧
    g1.en_passant_expires = some g1.turn_counter ∧
    (Int.fdiv (r1 + r2) 2, cc) ∈ getValidMoves g1 pr pc ∧
    bGet g2.board pr cc = none ∧
    g3.en_passant_target = none ∧
    g3.en_passant_expires = none ∧
    (∀ qr qc : Int, ∀ cq : Color, bGet g3.board qr qc = some (cq, .P) →
      ∀ m ∈ getValidMoves g3 qr qc, m.2 ≠ qc → bGet g3.board m.1 m.2 ≠ none) := by
  obtain ⟨h1t, h1e, h1turn⟩ :=
    applyMove_double_push_ep g0 g1 res1 r1 cc r2 colr hP hdp habs
  have hrows := doublePush_rows g0 r1 cc r2 colr g1 res1 hP hdp habs
  have hccb := bGet_some_bounds hP
  have hmidb : Int.fdiv (r1 + r2) 2 = 5 ∨ Int.fdiv (r1 + r2) 2 = 2 := by
    rcases hrows with ⟨_, h6, h4⟩ | ⟨_, ha, hb⟩
    · left; rw [h6, h4]; decide
    · right; rw [ha, hb]; decide
  have hob : isOnBoard (Int.fdiv (r1 + r2) 2) cc = true := by
    simp only [isOnBoard, Bool.and_eq_true, decide_eq_true_eq]
    rcases hmidb with h | h <;> rw [h] <;> omega
  have hepm : epMatches g1 (Int.fdiv (r1 + r2) 2, cc) = true :=
    epMatches_of g1 _ g1.turn_counter h1t h1e rfl
  have hmem : ((Int.fdiv (r1 + r2) 2, cc) : Pos) ∈ getValidMoves g1 pr pc := by
    apply ep_capture_in_moves g1 pr pc g1.current_player _ hpawn hob ?_ hepm hsafe
    rcases hadj with h | h
    · right
      have hcc : cc = pc + 1 := by omega
      rw [← hrow, hcc]
    · left
      have hcc : cc = pc + -1 := by omega
      rw [← hrow, hcc]
  have hjump : bGet g2.board pr cc = none := by
    have hb2 := applyMove_board g1 g2 (pr, pc) (Int.fdiv (r1 + r2) 2, cc) res2 hcap
    rw [hb2, movePiece_board g1 _ _ (g1.current_player, .P) hpawn]
    have hrne : ((Int.fdiv (r1 + r2) 2, cc) : Pos).1 ≠ pr := by
      show Int.fdiv (r1 + r2) 2 ≠ pr
      rw [← hrow]
      cases hcw : g1.current_player <;> simp [hcw]
    exact epCapture_removes_jumped g1 pr pc _ g1.current_player hepm hrne
  have hclear : g3.en_passant_target = none ∧ g3.en_passant_expires = none := by
    apply applyMove_clears_ep g1 g3 (s3r, s3c) (e3r, e3c) res3 p3 g1.turn_counter
      halt hp3 ?_ h1e (le_refl _)
    intro hcon
    rcases hnd with h | h
    · exact h hcon.1
    · exact h hcon.2
  refine ⟨h1t, h1e, hmem, hjump, hclear.1, hclear.2, ?_⟩
  intro qr qc cq hq m hm hcol
  exact pawn_diag_needs_occupant g3 qr qc cq hclear.1 hq m hm hcol

/-- White rook a4, white pawn d2, black pawn e4, black king h4, white king a1:
after the double push d2-d4 the black e4 pawn is adjacent to the en-passant
target d3, but capturing en passant removes both d4 and e4 from the fourth
rank and exposes the black king to the rook. -/
def c7fen : List Char := "8/8/8/8/R3p2k/8/3P4/K7 w - - 0 1".toList

def c7pos : ChessGame := (fenImport resetGame c7fen).1

def c7after : ChessGame := (applyMove c7pos (6, 3) (4, 3)).1

/-- Counterexample to C7: after the committed double push d2-d4 in `c7pos`,
the window is open and the black pawn e4 is adjacent, yet the legal-move set
of that pawn does *not* contain the en-passant target d3 = (5,3) — the
legality filter removes the capture because it would expose black's king. -/
theorem C7_counterexample_pinned_ep_capture :
    moveResultOf c7pos (6, 3) (4, 3) = some ⟨none, false, .black, none, false, false⟩ ∧
    c7after.en_passant_target = some (5, 3) ∧
    c7after.en_passant_expires = some c7after.turn_counter ∧
    bGet c7after.board 4 4 = some (.black, .P) ∧
    ((5 : Int), (3 : Int)) ∉ getValidMoves c7after 4 4 := by
  refine ⟨by decide, by decide, by decide, by decide, by decide⟩

/-- Witness for the amended C7 on the unpinned scenario `epDemo0`: the double
push opens the window, the capture is available and removes the jumped pawn,
and after the unrelated reply Ka8-a7 the window is cleared and the capture is
gone. -/
theorem C7_amended_witness :
    epDemo1.en_passant_target = some (5, 3) ∧
    epDemo1.en_passant_expires = some epDemo1.turn_counter ∧
    ((5 : Int), (3 : Int)) ∈ getValidMoves epDemo1 4 4 ∧
    bGet epDemo2.board 4 3 = none ∧
    epDemo3.en_passant_target = none ∧
    epDemo3.en_passant_expires = none ∧
    ((5 : Int), (3 : Int)) ∉ getValidMoves epDemo3 4 4 := by
  have hdp : applyMove epDemo0 (6, 3) (4, 3) =
      (epDemo1, Except.ok ⟨none, false, .black, none, false, false⟩) :=
    moveResultOf_eq_some _ _ _ _ (by decide)
  have hcap : applyMove epDemo1 (4, 4) (5, 3) =
      (epDemo2, Except.ok ⟨none, false, .white, none, false, false⟩) :=
    moveResultOf_eq_some _ _ _ _ (by decide)
  have halt : applyMove epDemo1 (0, 0) (1, 0) =
      (epDemo3, Except.ok ⟨none, false, .white, none, false, false⟩) :=
    moveResultOf_eq_some _ _ _ _ (by decide)
  have H := C7_amended_en_passant_window epDemo0 epDemo1 epDemo2 epDemo3
    ⟨none, false, .black, none, false, false⟩
    ⟨none, false, .white, none, false, false⟩
    ⟨none, false, .white, none, false, false⟩
    6 3 4 4 4 0 0 1 0 Color.white (Color.black, PieceType.K)
    (by decide) hdp (by decide) (by decide) (by decide) (by decide) (by decide)
    hcap halt (by decide) (by decide)
  refine ⟨by decide, by decide, by decide, by decide, by decide, by decide, ?_⟩
  intro hmem
  have hocc := H.2.2.2.2.2.2 4 4 Color.black (by decide) (5, 3) hmem (by decide)
  exact hocc (by decide)

/-! ### C3 lemmas, part 1: decimal rendering and `int()` recovery -/

lemma isAsciiDigit_digitChar (n : Nat) (h : n ≤ 9) :
    isAsciiDigit (digitChar n) = true := by
  interval_cases n <;> decide

lemma digitVal_digitChar (n : Nat) (h : n ≤ 9) : digitVal (digitChar n) = n := by
  interval_cases n <;> decide

lemma digitChar_ne_underscore (n : Nat) (h : n ≤ 9) : digitChar n ≠ '_' := by
  interval_cases n <;> decide

lemma natToChars_ne_nil (n : Nat) : natToChars n ≠ [] := by
  rw [natToChars]
  split_ifs
  · simp
  · intro hcon
    exact absurd (List.append_eq_nil.mp hcon).2 (by simp)

lemma natToChars_digits (n : Nat) :
    ∀ c ∈ natToChars n, isAsciiDigit c = true := by
  induction n using Nat.strong_induction_on with
  | _ n ih =>
    intro c hc
    rw [natToChars] at hc
    split_ifs at hc with h
    · rw [List.mem_singleton.mp hc]
      exact isAsciiDigit_digitChar n (by omega)
    · rcases List.mem_append.mp hc with h1 | h2
      · exact ih (n / 10) (Nat.div_lt_self (by omega) (by omega)) c h1
      · rw [List.mem_singleton.mp h2]
        exact isAsciiDigit_digitChar (n % 10) (by omega)

lemma pyDigitsAux_all_digits (ds : List Char) :
    (∀ c ∈ ds, isAsciiDigit c = true) → ∀ acc,
      pyDigitsAux ds acc =
        some (ds.foldl (fun a c => a * 10 + digitVal c) acc) := by
  induction ds with
  | nil => intro _ acc; rfl
  | cons c cs ih =>
    intro hd acc
    have hc : isAsciiDigit c = true := hd c (List.mem_cons_self _ _)
    have hcu : c ≠ '_' := by
      intro hcon
      rw [hcon] at hc
      exact absurd hc (by decide)
    rw [pyDigitsAux.eq_def]
    simp only
    rw [if_neg hcu, if_pos hc, List.foldl_cons]
    exact ih (fun x hx => hd x (List.mem_cons_of_mem _ hx)) _

lemma natToChars_foldl (n : Nat) : ∀ acc : Nat,
    (natToChars n).foldl (fun a c => a * 10 + digitVal c) acc =
      acc * 10 ^ (natToChars n).length + n := by
  induction n using Nat.strong_induction_on with
  | _ n ih =>
    intro acc
    rw [natToChars]
    split_ifs with h
    · simp [digitVal_digitChar n (by omega)]
    · rw [List.foldl_append, List.length_append,
        ih (n / 10) (Nat.div_lt_self (by omega) (by omega)) acc]
      simp only [List.foldl_cons, List.foldl_nil, List.length_cons,
        List.length_nil]
      rw [digitVal_digitChar (n % 10) (by omega)]
      rw [pow_succ]
      have hdm : n / 10 * 10 + n % 10 = n := by omega
      ring_nf
      omega

lemma pyNatPart_natToChars (n : Nat) : pyNatPart (natToChars n) = some n := by
  cases hl : natToChars n with
  | nil => exact absurd hl (natToChars_ne_nil n)
  | cons c cs =>
    have hdigits := natToChars_digits n
    rw [hl] at hdigits
    have hc : isAsciiDigit c = true := hdigits c (List.mem_cons_self _ _)
    rw [pyNatPart, if_pos hc]
    rw [pyDigitsAux_all_digits cs (fun x hx => hdigits x (List.mem_cons_of_mem _ hx))]
    have hf := natToChars_foldl n 0
    rw [hl, List.foldl_cons] at hf
    simp only [Nat.zero_mul, Nat.zero_add] at hf
    rw [hf]

lemma pyIntOfChars_intToChars (v : Int) : pyIntOfChars (intToChars v) = some v := by
  rw [intToChars]
  split_ifs with hv
  · rw [pyIntOfChars, if_neg (by decide), if_pos rfl, pyNatPart_natToChars]
    show some (-(((-v).toNat : Int))) = some v
    congr 1
    omega
  · cases hl : natToChars v.toNat with
    | nil => exact absurd hl (natToChars_ne_nil _)
    | cons c cs =>
      have hdigits := natToChars_digits v.toNat
      rw [hl] at hdigits
      have hc : isAsciiDigit c = true := hdigits c (List.mem_cons_self _ _)
      have hplus : c ≠ '+' := by
        intro hcon; rw [hcon] at hc; exact absurd hc (by decide)
      have hminus : c ≠ '-' := by
        intro hcon; rw [hcon] at hc; exact absurd hc (by decide)
      rw [pyIntOfChars, if_neg hplus, if_neg hminus, ← hl, pyNatPart_natToChars]
      show some ((v.toNat : Int)) = some v
      congr 1
      omega

/-! ### C3 lemmas, part 2: the two splitters undo `joinSep` -/

lemma splitWSAux_token (t : List Char) (hws : ∀ c ∈ t, pyIsSpace c = false) :
    ∀ rest acc, splitWSAux (t ++ rest) acc = splitWSAux rest (t.reverse ++ acc) := by
  induction t with
  | nil => intro rest acc; simp
  | cons c cs ih =>
    intro rest acc
    have hc : pyIsSpace c = false := hws c (List.mem_cons_self _ _)
    rw [List.cons_append, splitWSAux, hc]
    simp only [Bool.false_eq_true, if_false]
    rw [ih (fun x hx => hws x (List.mem_cons_of_mem _ hx)) rest (c :: acc)]
    congr 1
    simp

lemma splitWS_joinSep (ts : List (List Char)) (hne : ∀ t ∈ ts, t ≠ [])
    (hws : ∀ t ∈ ts, ∀ c ∈ t, pyIsSpace c = false) :
    splitWS (joinSep [' '] ts) = ts := by
  induction ts with
  | nil => rfl
  | cons t ts ih =>
    have ht : ∀ c ∈ t, pyIsSpace c = false := hws t (List.mem_cons_self _ _)
    have htne : t ≠ [] := hne t (List.mem_cons_self _ _)
    cases ts with
    | nil =>
      show splitWSAux (joinSep [' '] [t]) [] = [t]
      rw [joinSep]
      rw [← List.append_nil t]
      rw [splitWSAux_token t ht [] []]
      rw [splitWSAux]
      rw [if_neg (by simp [htne])]
      simp
    | cons t2 ts2 =>
      show splitWSAux (joinSep [' '] (t :: t2 :: ts2)) [] = t :: t2 :: ts2
      rw [joinSep]
      have hassoc : t ++ [' '] ++ joinSep [' '] (t2 :: ts2) =
          t ++ (' ' :: joinSep [' '] (t2 :: ts2)) := by simp
      rw [hassoc, splitWSAux_token t ht _ [], List.append_nil]
      rw [splitWSAux]
      rw [if_pos (by decide)]
      rw [if_neg (by simp [htne])]
      rw [List.reverse_reverse]
      show t :: splitWS (joinSep [' '] (t2 :: ts2)) = t :: t2 :: ts2
      rw [ih (fun x hx => hne x (List.mem_cons_of_mem _ hx))
        (fun x hx => hws x (List.mem_cons_of_mem _ hx))]
      exact fun h => List.noConfusion h

lemma splitCharAux_token (sep : Char) (t : List Char) (hsep : ∀ c ∈ t, c ≠ sep) :
    ∀ rest acc, splitCharAux sep (t ++ rest) acc =
      splitCharAux sep rest (t.reverse ++ acc) := by
  induction t with
  | nil => intro rest acc; simp
  | cons c cs ih =>
    intro rest acc
    have hc : c ≠ sep := hsep c (List.mem_cons_self _ _)
    rw [List.cons_append, splitCharAux, if_neg hc]
    rw [ih (fun x hx => hsep x (List.mem_cons_of_mem _ hx)) rest (c :: acc)]
    congr 1
    simp

lemma splitOnSlash_joinSep (ts : List (List Char)) (hts : ts ≠ [])
    (hsl : ∀ t ∈ ts, ∀ c ∈ t, c ≠ '/') :
    splitOnSlash (joinSep ['/'] ts) = ts := by
  induction ts with
  | nil => exact absurd rfl hts
  | cons t ts ih =>
    have ht : ∀ c ∈ t, c ≠ '/' := hsl t (List.mem_cons_self _ _)
    cases ts with
    | nil =>
      show splitCharAux '/' (joinSep ['/'] [t]) [] = [t]
      rw [joinSep, ← List.append_nil t, splitCharAux_token '/' t ht [] []]
      rw [splitCharAux]
      simp
    | cons t2 ts2 =>
      show splitCharAux '/' (joinSep ['/'] (t :: t2 :: ts2)) [] = t :: t2 :: ts2
      rw [joinSep]
      have hassoc : t ++ ['/'] ++ joinSep ['/'] (t2 :: ts2) =
          t ++ ('/' :: joinSep ['/'] (t2 :: ts2)) := by simp
      rw [hassoc, splitCharAux_token '/' t ht _ [], List.append_nil]
      rw [splitCharAux, if_pos rfl, List.reverse_reverse]
      show t :: splitOnSlash (joinSep ['/'] (t2 :: ts2)) = t :: t2 :: ts2
      rw [ih (by simp) (fun x hx => hsl x (List.mem_cons_of_mem _ hx))]
      exact fun h => List.noConfusion h

lemma isAsciiDigit_not_space (c : Char) (h : isAsciiDigit c = true) :
    pyIsSpace c = false := by
  simp only [pyIsSpace, Bool.or_eq_false_iff, decide_eq_false_iff_not]
  refine ⟨⟨⟨?_, ?_⟩, ?_⟩, ?_⟩ <;> rintro rfl <;> exact absurd h (by decide)

lemma isAsciiDigit_ne_slash (c : Char) (h : isAsciiDigit c = true) : c ≠ '/' := by
  rintro rfl; exact absurd h (by decide)

lemma pieceToChar_not_space (p : Piece) : pyIsSpace (pieceToChar p) = false := by
  obtain ⟨c, t⟩ := p; cases c <;> cases t <;> decide

lemma pieceToChar_ne_slash (p : Piece) : pieceToChar p ≠ '/' := by
  obtain ⟨c, t⟩ := p; cases c <;> cases t <;> decide

lemma pieceToChar_not_digit (p : Piece) : isAsciiDigit (pieceToChar p) = false := by
  obtain ⟨c, t⟩ := p; cases c <;> cases t <;> decide

lemma charToPiece_pieceToChar (p : Piece) : charToPiece (pieceToChar p) = some p := by
  obtain ⟨c, t⟩ := p; cases c <;> cases t <;> decide

/-- Every character emitted by `rleRank` is a digit below 9 or a piece letter. -/
lemma rleRank_chars (l : List (Option Piece)) : ∀ (n : Nat), n + l.length ≤ 8 →
    ∀ c ∈ rleRank l n,
      (∃ m : Nat, m ≤ 9 ∧ c = digitChar m) ∨ ∃ p, c = pieceToChar p := by
  induction l with
  | nil =>
    intro n hn c hc
    cases n with
    | zero => simp [rleRank] at hc
    | succ m =>
      rw [rleRank] at hc
      rw [List.mem_singleton.mp hc]
      exact Or.inl ⟨m + 1, by simp at hn; omega, rfl⟩
  | cons o rest ih =>
    intro n hn c hc
    cases o with
    | none =>
      rw [rleRank] at hc
      exact ih (n + 1) (by simp at hn ⊢; omega) c hc
    | some p =>
      rw [rleRank] at hc
      rcases List.mem_append.mp hc with h1 | h2
      · rw [List.mem_ite_nil_left] at h1
        rw [List.mem_singleton.mp h1.2]
        exact Or.inl ⟨n, by simp at hn; omega, rfl⟩
      · rcases List.mem_cons.mp h2 with h3 | h4
        · exact Or.inr ⟨p, h3⟩
        · exact ih 0 (by simp at hn ⊢; omega) c h4

/-! ### C3 lemmas, part 3: re-parsing an emitted rank recovers the row -/

/-- Writing a row's squares back left to right (the net effect of the
`parse`-loop on one rank of an emitted placement). -/
def applyRow (b : Board) (row : Int) : Int → List (Option Piece) → Board
  | _, [] => b
  | col, none :: rest => applyRow b row (col + 1) rest
  | col, some p :: rest => applyRow (bSet b row col (some p)) row (col + 1) rest

lemma applyRow_spec (row : Int) : ∀ (l : List (Option Piece)) (col : Int)
    (b0 : Board) (r c : Fin 8),
    applyRow b0 row col l r c =
      if ((r.val : Int) = row ∧ col ≤ (c.val : Int) ∧ (c.val : Int) < col + l.length)
      then (match l.getD (((c.val : Int) - col).toNat) none with
            | none => b0 r c
            | some p => some p)
      else b0 r c := by
  intro l
  induction l with
  | nil =>
    intro col b0 r c
    rw [applyRow, if_neg (by simp only [List.length_nil]; omega)]
  | cons o rest ih =>
    intro col b0 r c
    by_cases hr : (r.val : Int) = row
    · by_cases hlo : col ≤ (c.val : Int)
      · by_cases heq : (c.val : Int) = col
        · have hidx : (((c.val : Int)) - col).toNat = 0 := by omega
          cases o with
          | none =>
            rw [applyRow, ih (col + 1) b0 r c,
              if_neg (by intro hcon; omega), if_pos (by simp only [List.length_cons]; omega)]
            rw [hidx]
            rfl
          | some p =>
            rw [applyRow, ih (col + 1) _ r c, if_neg (by intro hcon; omega),
              if_pos (by simp only [List.length_cons]; omega)]
            rw [hidx]
            show bSet b0 row col (some p) r c = some p
            rw [bSet, if_pos ⟨hr, heq⟩]
        · have hlt : col + 1 ≤ (c.val : Int) := by omega
          have hidx : (((c.val : Int)) - col).toNat =
              (((c.val : Int)) - (col + 1)).toNat + 1 := by omega
          cases o with
          | none =>
            rw [applyRow, ih (col + 1) b0 r c]
            by_cases hhi : (c.val : Int) < col + 1 + rest.length
            · rw [if_pos ⟨hr, hlt, hhi⟩, if_pos (by simp only [List.length_cons]; omega), hidx]
              rw [List.getD_cons_succ]
            · rw [if_neg (by intro hcon; exact hhi hcon.2.2),
                if_neg (fun hcon => hhi (by simp only [List.length_cons] at hcon; omega))]
          | some p =>
            rw [applyRow, ih (col + 1) _ r c]
            have hbs : bSet b0 row col (some p) r c = b0 r c := by
              rw [bSet, if_neg (by intro hcon; omega)]
            by_cases hhi : (c.val : Int) < col + 1 + rest.length
            · rw [if_pos ⟨hr, hlt, hhi⟩, if_pos (by simp only [List.length_cons]; omega), hidx]
              rw [List.getD_cons_succ]
              cases rest.getD (((c.val : Int) - (col + 1)).toNat) none with
              | none => exact hbs
              | some q => rfl
            · rw [if_neg (by intro hcon; exact hhi hcon.2.2),
                if_neg (fun hcon => hhi (by simp only [List.length_cons] at hcon; omega))]
              exact hbs
      · have hout : ¬((r.val : Int) = row ∧ col ≤ (c.val : Int) ∧
            (c.val : Int) < col + ((o :: rest).length : Int)) := by
          intro hcon; exact hlo hcon.2.1
        rw [if_neg hout]
        cases o with
        | none =>
          rw [applyRow, ih (col + 1) b0 r c, if_neg (by intro hcon; omega)]
        | some p =>
          rw [applyRow, ih (col + 1) _ r c, if_neg (by intro hcon; omega)]
          rw [bSet, if_neg (by intro hcon; omega)]
    · rw [if_neg (by intro hcon; exact hr hcon.1)]
      cases o with
      | none =>
        rw [applyRow, ih (col + 1) b0 r c, if_neg (by intro hcon; exact hr hcon.1)]
      | some p =>
        rw [applyRow, ih (col + 1) _ r c, if_neg (by intro hcon; exact hr hcon.1)]
        rw [bSet, if_neg (by intro hcon; exact hr hcon.1)]

lemma applyRow_col_congr (b : Board) (row : Int) {col col' : Int} (h : col = col')
    (l : List (Option Piece)) : applyRow b row col l = applyRow b row col' l := by
  rw [h]

lemma parseRank_rle (row : Int) : ∀ (l : List (Option Piece)) (n : Nat) (col : Int)
    (b0 : Board), 0 ≤ col → col + (n : Int) + (l.length : Int) = 8 →
    parseRankB (rleRank l n) row col b0 =
      .ok (applyRow b0 row (col + (n : Int)) l) := by
  intro l
  induction l with
  | nil =>
    intro n col b0 hc h8
    simp only [List.length_nil] at h8
    cases n with
    | zero =>
      rw [rleRank, parseRankB, if_pos (by omega), applyRow]
    | succ m =>
      rw [rleRank, parseRankB,
        if_pos (isAsciiDigit_digitChar (m + 1) (by omega)),
        digitVal_digitChar (m + 1) (by omega), parseRankB, if_pos (by omega),
        applyRow]
  | cons o rest ih =>
    intro n col b0 hc h8
    simp only [List.length_cons] at h8
    cases o with
    | none =>
      rw [rleRank, ih (n + 1) col b0 hc (by push_cast at h8 ⊢; omega)]
      rw [applyRow_col_congr b0 row (show col + ((n + 1 : Nat) : Int) =
        col + (n : Int) + 1 by push_cast; ring) rest]
      rw [applyRow]
    | some p =>
      have hcommon : ∀ (col2 : Int), 0 ≤ col2 →
          col2 + 1 + (rest.length : Int) = 8 →
          parseRankB (pieceToChar p :: rleRank rest 0) row col2 b0 =
            .ok (applyRow b0 row col2 (some p :: rest)) := by
        intro col2 h0 h8'
        rw [parseRankB, if_neg (by simp [pieceToChar_not_digit p])]
        simp only [charToPiece_pieceToChar]
        rw [if_neg (by omega)]
        rw [ih 0 (col2 + 1) (bSet b0 row col2 (some p)) (by omega)
          (by push_cast at h8' ⊢; omega)]
        rw [applyRow_col_congr _ row (show (col2 + 1) + ((0 : Nat) : Int) =
          col2 + 1 by push_cast; ring) rest]
        rw [applyRow]
      rw [rleRank]
      cases n with
      | zero =>
        rw [if_pos rfl, List.nil_append]
        rw [hcommon col hc (by push_cast at h8 ⊢; omega)]
        rw [applyRow_col_congr b0 row (show col = col + ((0 : Nat) : Int)
          by push_cast; ring) (some p :: rest)]
      | succ m =>
        rw [if_neg (by simp), List.singleton_append, parseRankB,
          if_pos (isAsciiDigit_digitChar (m + 1) (by omega)),
          digitVal_digitChar (m + 1) (by omega)]
        rw [hcommon (col + ((m + 1 : Nat) : Int)) (by push_cast; omega)
          (by push_cast at h8 ⊢; omega)]

lemma getD_ofFn (f : Fin 8 → Option Piece) (c : Fin 8) :
    (List.ofFn f).getD c.val none = f c := by
  have hlt : c.val < (List.ofFn f).length := by simp [c.isLt]
  rw [List.getD_eq_getElem _ _ hlt, List.getElem_ofFn]

lemma applyRow_ofFn (b0 : Board) (row : Int) (f : Fin 8 → Option Piece)
    (r c : Fin 8) :
    applyRow b0 row 0 (List.ofFn f) r c =
      if (r.val : Int) = row then (f c).or (b0 r c) else b0 r c := by
  rw [applyRow_spec]
  by_cases hr : (r.val : Int) = row
  · have hc8 : c.val < 8 := c.isLt
    rw [if_pos ⟨hr, by omega, by simp only [List.length_ofFn]; omega⟩, if_pos hr]
    have hidx : (((c.val : Int)) - 0).toNat = c.val := by omega
    rw [hidx, getD_ofFn]
    cases f c <;> rfl
  · rw [if_neg (fun hcon => hr hcon.1), if_neg hr]

lemma rleRank_ofFn_ne_slash (f : Fin 8 → Option Piece) :
    ∀ c ∈ rleRank (List.ofFn f) 0, c ≠ '/' := by
  intro c hc
  rcases rleRank_chars (List.ofFn f) 0 (by simp) c hc with ⟨m, hm, rfl⟩ | ⟨p, rfl⟩
  · exact isAsciiDigit_ne_slash _ (isAsciiDigit_digitChar m hm)
  · exact pieceToChar_ne_slash p

lemma parseRankB_export (row : Int) (b0 : Board) (f : Fin 8 → Option Piece) :
    parseRankB (rleRank (List.ofFn f) 0) row 0 b0 =
      .ok (applyRow b0 row 0 (List.ofFn f)) := by
  rw [parseRank_rle row (List.ofFn f) 0 0 b0 le_rfl (by simp)]
  rw [applyRow_col_congr b0 row
    (show (0 : Int) + ((0 : Nat) : Int) = 0 by simp) (List.ofFn f)]

lemma parseRanksB_export_step (f : Fin 8 → Option Piece)
    (rest : List (List Char)) (row : Int) (b0 : Board) :
    parseRanksB (rleRank (List.ofFn f) 0 :: rest) row b0 =
      parseRanksB rest (row + 1) (applyRow b0 row 0 (List.ofFn f)) := by
  rw [parseRanksB, parseRankB_export row b0 f]

/-- Re-parsing an emitted placement recovers the board exactly. -/
lemma exportPlacement_parse (b : Board) :
    parsePlacement (exportPlacement b) = .ok b := by
  have hfin : (List.finRange 8 : List (Fin 8)) = [0, 1, 2, 3, 4, 5, 6, 7] := by
    decide
  simp only [exportPlacement, parsePlacement, hfin, List.map_cons, List.map_nil]
  rw [splitOnSlash_joinSep _ (by simp)
    (by
      intro t ht
      simp only [List.mem_cons, List.not_mem_nil, or_false] at ht
      rcases ht with h | h | h | h | h | h | h | h <;> rw [h] <;>
        exact rleRank_ofFn_ne_slash _)]
  rw [if_neg (by simp)]
  rw [parseRanksB_export_step, parseRanksB_export_step, parseRanksB_export_step,
    parseRanksB_export_step, parseRanksB_export_step, parseRanksB_export_step,
    parseRanksB_export_step, parseRanksB_export_step, parseRanksB]
  congr 1
  funext r c
  simp only [applyRow_ofFn]
  fin_cases r <;> norm_num [emptyBoard, Option.or_none] <;> rfl

/-! ### C3 lemmas, part 4: the remaining FEN fields round-trip -/

lemma exportCastling_roundtrip (cr : CastlingRights) :
    CastlingRights.mk ((exportCastling cr).contains 'K')
      ((exportCastling cr).contains 'Q') ((exportCastling cr).contains 'k')
      ((exportCastling cr).contains 'q') = cr := by
  obtain ⟨a, b, c, d⟩ := cr
  cases a <;> cases b <;> cases c <;> cases d <;> decide

lemma exportCastling_ne_nil (cr : CastlingRights) : exportCastling cr ≠ [] := by
  obtain ⟨a, b, c, d⟩ := cr
  cases a <;> cases b <;> cases c <;> cases d <;> decide

lemma exportCastling_not_space (cr : CastlingRights) :
    ∀ ch ∈ exportCastling cr, pyIsSpace ch = false := by
  obtain ⟨a, b, c, d⟩ := cr
  cases a <;> cases b <;> cases c <;> cases d <;> decide

lemma intToChars_ne_nil (v : Int) : intToChars v ≠ [] := by
  rw [intToChars]
  split_ifs
  · simp
  · exact natToChars_ne_nil _

lemma intToChars_not_space (v : Int) :
    ∀ ch ∈ intToChars v, pyIsSpace ch = false := by
  intro ch hch
  rw [intToChars] at hch
  split_ifs at hch
  · rcases List.mem_cons.mp hch with h | h
    · rw [h]; decide
    · exact isAsciiDigit_not_space ch (natToChars_digits _ ch h)
  · exact isAsciiDigit_not_space ch (natToChars_digits _ ch hch)

lemma squareToAlg_pair (r c : Int) (h1 : 0 ≤ r) (h2 : r < 8) :
    squareToAlg (r, c) = [fileChar c, digitChar (8 - r).toNat] := by
  show fileChar c :: intToChars (8 - r) = _
  rw [intToChars, if_neg (by omega), natToChars, if_pos (by omega)]

lemma algToSquare_squareToAlg (r c : Int) (h1 : 0 ≤ r) (h2 : r < 8)
    (h3 : 0 ≤ c) (h4 : c < 8) :
    algToSquare (squareToAlg (r, c)) = some (r, c) := by
  rw [squareToAlg_pair r c h1 h2]
  interval_cases r <;> interval_cases c <;> decide

lemma squareToAlg_not_space (r c : Int) (h1 : 0 ≤ r) (h2 : r < 8)
    (h3 : 0 ≤ c) (h4 : c < 8) :
    ∀ ch ∈ squareToAlg (r, c), pyIsSpace ch = false := by
  rw [squareToAlg_pair r c h1 h2]
  intro ch hch
  rcases List.mem_cons.mp hch with h | h
  · rw [h]; interval_cases c <;> decide
  · rw [List.mem_singleton.mp h]
    exact isAsciiDigit_not_space _ (isAsciiDigit_digitChar _ (by omega))

lemma squareToAlg_ne_dash (r c : Int) (h1 : 0 ≤ r) (h2 : r < 8) :
    squareToAlg (r, c) ≠ ['-'] := by
  rw [squareToAlg_pair r c h1 h2]
  simp

lemma squareToAlg_ne_nil (r c : Int) (h1 : 0 ≤ r) (h2 : r < 8) :
    squareToAlg (r, c) ≠ [] := by
  rw [squareToAlg_pair r c h1 h2]
  simp

lemma joinSep_chars (sep : List Char) : ∀ (ts : List (List Char)),
    ∀ ch ∈ joinSep sep ts, ch ∈ sep ∨ ∃ t ∈ ts, ch ∈ t
  | [] => by intro ch hch; simp [joinSep] at hch
  | [t] => by
    intro ch hch
    rw [joinSep] at hch
    exact Or.inr ⟨t, List.mem_singleton.mpr rfl, hch⟩
  | t :: t2 :: ts => by
    intro ch hch
    rw [joinSep] at hch
    rcases List.mem_append.mp hch with h1 | h2
    · rcases List.mem_append.mp h1 with h3 | h4
      · exact Or.inr ⟨t, List.mem_cons_self _ _, h3⟩
      · exact Or.inl h4
    · rcases joinSep_chars sep (t2 :: ts) ch h2 with h5 | ⟨t', ht', hch'⟩
      · exact Or.inl h5
      · exact Or.inr ⟨t', List.mem_cons_of_mem _ ht', hch'⟩
    · exact fun h => List.noConfusion h

lemma joinSep_ne_nil_of_two (sep : List Char) (hsep : sep ≠ [])
    (t1 t2 : List Char) (ts : List (List Char)) :
    joinSep sep (t1 :: t2 :: ts) ≠ [] := by
  rw [joinSep]
  · simp [hsep]
  · exact fun h => List.noConfusion h

lemma exportPlacement_not_space (b : Board) :
    ∀ ch ∈ exportPlacement b, pyIsSpace ch = false := by
  intro ch hch
  rw [exportPlacement] at hch
  rcases joinSep_chars ['/'] _ ch hch with h | ⟨t, ht, hch'⟩
  · rw [List.mem_singleton.mp h]; decide
  · rcases List.mem_map.mp ht with ⟨r, _, rfl⟩
    rcases rleRank_chars _ 0 (by simp) ch hch' with ⟨m, hm, rfl⟩ | ⟨p, rfl⟩
    · exact isAsciiDigit_not_space _ (isAsciiDigit_digitChar m hm)
    · exact pieceToChar_not_space p

lemma exportPlacement_ne_nil (b : Board) : exportPlacement b ≠ [] := by
  rw [exportPlacement]
  have hfin : (List.finRange 8 : List (Fin 8)) = [0, 1, 2, 3, 4, 5, 6, 7] := by
    decide
  rw [hfin]
  simp only [List.map_cons, List.map_nil]
  exact joinSep_ne_nil_of_two ['/'] (by simp) _ _ _

/-! ### C3 lemmas, part 5: import-state cleanliness -/

lemma updateStatus_fullmove (g : ChessGame) :
    (updateStatus g).fullmove_number = g.fullmove_number := by
  unfold updateStatus; split_ifs <;> rfl

lemma updateStatus_halfmove (g : ChessGame) :
    (updateStatus g).halfmove_clock = g.halfmove_clock := by
  unfold updateStatus; split_ifs <;> rfl

/-- The three bookkeeping assignments of `import_fen` just before
`_update_status`. -/
def resetStatusFields (g : ChessGame) : ChessGame :=
  { g with game_over := false, status := none, winner := none }

/-- A state is clean when its status fields agree with a fresh
`_update_status` pass, its ply counter matches its fullmove/player fields, and
its en-passant fields are either both absent or a live in-range target — all of
which `import_fen` establishes. -/
def fenClean (g : ChessGame) : Prop :=
  updateStatus (resetStatusFields g) = g ∧
  g.turn_counter = 2 * (g.fullmove_number - 1) +
    (if g.current_player = .black then 1 else 0) ∧
  ((g.en_passant_target = none ∧ g.en_passant_expires = none) ∨
   (∃ t : Pos, g.en_passant_target = some t ∧
      g.en_passant_expires = some g.turn_counter ∧
      0 ≤ t.1 ∧ t.1 < 8 ∧ 0 ≤ t.2 ∧ t.2 < 8))

lemma resetStatusFields_updateStatus (g : ChessGame) :
    resetStatusFields (updateStatus g) = resetStatusFields g := by
  unfold updateStatus; split_ifs <;> rfl

lemma char_le_toNat {a b : Char} (h : a ≤ b) : a.toNat ≤ b.toNat := by
  rw [Char.le_def, UInt32.le_def, BitVec.le_def] at h
  exact h

lemma algToSquare_bounds (l : List Char) (t : Pos) (h : algToSquare l = some t) :
    0 ≤ t.1 ∧ t.1 < 8 ∧ 0 ≤ t.2 ∧ t.2 < 8 := by
  match l with
  | [] => exact absurd h (by rw [algToSquare] <;> simp)
  | [_] => exact absurd h (by rw [algToSquare] <;> simp)
  | f :: d :: x :: xs => exact absurd h (by rw [algToSquare] <;> simp)
  | [f, d] =>
    cases hf : fileIdx f with
    | none => rw [algToSquare, hf] at h; exact absurd h (by simp)
    | some col =>
      rw [algToSquare, hf] at h
      split_ifs at h with hd
      · have h1 : '1' ≤ d := by
          have := Bool.and_elim_left hd
          exact of_decide_eq_true this
        have h2 : d ≤ '8' := by
          have := Bool.and_elim_right hd
          exact of_decide_eq_true this
        have h1n : (49 : Nat) ≤ d.toNat := char_le_toNat h1
        have h2n : d.toNat ≤ 56 := char_le_toNat h2
        have hcol : 0 ≤ col ∧ col < 8 := by
          rw [fileIdx] at hf
          split_ifs at hf <;> injection hf with hc <;> omega
        injection h with hval
        rw [← hval]
        have h48 : '0'.toNat = 48 := rfl
        refine ⟨?_, ?_, hcol.1, hcol.2⟩
        · show (0 : Int) ≤ 8 - (digitVal d : Int)
          simp only [digitVal]
          omega
        · show (8 : Int) - (digitVal d : Int) < 8
          simp only [digitVal]
          omega

/-- Evaluating `import_fen` past a successful parse, en-passant field `"-"`. -/
lemma fenImport_eval_noEp (h0 : ChessGame) (s : List Char) (board : Board)
    (a c hm fm : List Char)
    (hpf : parseFenFields s = .ok (board, [a, c, ['-'], hm, fm]))
    (fmv hmv : Int)
    (hfm : pyIntOfChars fm = some fmv) (hhm : pyIntOfChars hm = some hmv) :
    fenImport h0 s =
      (updateStatus
        { board := board,
          castling_rights := ⟨c.contains 'K', c.contains 'Q', c.contains 'k',
            c.contains 'q'⟩,
          current_player := if a = ['w'] then Color.white else Color.black,
          en_passant_target := none,
          en_passant_expires := none,
          turn_counter :=
            if (if a = ['w'] then Color.white else Color.black) = Color.black
            then 2 * (fmv - 1) + 1 else 2 * (fmv - 1),
          halfmove_clock := hmv,
          fullmove_number := fmv,
          game_over := false,
          status := none,
          winner := none }, none) := by
  rw [fenImport, hpf]
  simp only [hfm, hhm]
  rw [if_neg (by simp)]

/-- Evaluating `import_fen` past a successful parse, en-passant field given. -/
lemma fenImport_eval_ep (h0 : ChessGame) (s : List Char) (board : Board)
    (a c e hm fm : List Char)
    (hpf : parseFenFields s = .ok (board, [a, c, e, hm, fm]))
    (fmv hmv : Int)
    (hfm : pyIntOfChars fm = some fmv) (hhm : pyIntOfChars hm = some hmv)
    (he : e ≠ ['-']) (t : Pos) (hat : algToSquare e = some t) :
    fenImport h0 s =
      (updateStatus
        { board := board,
          castling_rights := ⟨c.contains 'K', c.contains 'Q', c.contains 'k',
            c.contains 'q'⟩,
          current_player := if a = ['w'] then Color.white else Color.black,
          en_passant_target := some t,
          en_passant_expires := some
            (if (if a = ['w'] then Color.white else Color.black) = Color.black
             then 2 * (fmv - 1) + 1 else 2 * (fmv - 1)),
          turn_counter :=
            if (if a = ['w'] then Color.white else Color.black) = Color.black
            then 2 * (fmv - 1) + 1 else 2 * (fmv - 1),
          halfmove_clock := hmv,
          fullmove_number := fmv,
          game_over := false,
          status := none,
          winner := none }, none) := by
  rw [fenImport, hpf]
  simp only [hfm, hhm]
  rw [if_pos he]
  simp only [hat]

lemma fenClean_updateStatus (mk : ChessGame)
    (hgo : mk.game_over = false) (hstat : mk.status = none)
    (hwin : mk.winner = none)
    (htc : mk.turn_counter = 2 * (mk.fullmove_number - 1) +
      (if mk.current_player = .black then 1 else 0))
    (hep : (mk.en_passant_target = none ∧ mk.en_passant_expires = none) ∨
      (∃ t : Pos, mk.en_passant_target = some t ∧
        mk.en_passant_expires = some mk.turn_counter ∧
        0 ≤ t.1 ∧ t.1 < 8 ∧ 0 ≤ t.2 ∧ t.2 < 8)) :
    fenClean (updateStatus mk) := by
  have hreset : resetStatusFields mk = mk := by
    obtain ⟨b, cr, cp, et, ee, tc, hm, fm, go, st, wi⟩ := mk
    simp only at hgo hstat hwin
    rw [resetStatusFields, hgo, hstat, hwin]
  refine ⟨?_, ?_, ?_⟩
  · rw [resetStatusFields_updateStatus, hreset]
  · rw [updateStatus_turn, updateStatus_fullmove, updateStatus_current]
    exact htc
  · rw [updateStatus_ep_target, updateStatus_ep_expires, updateStatus_turn]
    exact hep

/-- Every state produced by a successful `import_fen` is clean. -/
lemma fenImport_clean (g0 g1 : ChessGame) (s : List Char)
    (h : fenImport g0 s = (g1, none)) : fenClean g1 := by
  cases hpf : parseFenFields s with
  | error e =>
    rw [fenImport, hpf] at h
    simp [Prod.mk.injEq] at h
  | ok pr =>
    obtain ⟨board, fields⟩ := pr
    rw [fenImport, hpf] at h
    rcases fields with _ | ⟨a, fields⟩
    · simp [Prod.mk.injEq] at h
    rcases fields with _ | ⟨c, fields⟩
    · simp [Prod.mk.injEq] at h
    rcases fields with _ | ⟨e, fields⟩
    · simp [Prod.mk.injEq] at h
    rcases fields with _ | ⟨hm, fields⟩
    · simp [Prod.mk.injEq] at h
    rcases fields with _ | ⟨fm, fields⟩
    · simp [Prod.mk.injEq] at h
    rcases fields with _ | ⟨x, fields⟩
    swap
    · simp [Prod.mk.injEq] at h
    cases hfm : pyIntOfChars fm with
    | none => simp [hfm, Prod.mk.injEq] at h
    | some fmv =>
    cases hhm : pyIntOfChars hm with
    | none => simp [hfm, hhm, Prod.mk.injEq] at h
    | some hmv =>
    simp only [hfm, hhm] at h
    by_cases he : e = ['-']
    · rw [if_neg (by simp [he])] at h
      have h1 : _ = g1 := congrArg Prod.fst h
      rw [← h1]
      refine fenClean_updateStatus _ rfl rfl rfl ?_ (Or.inl ⟨rfl, rfl⟩)
      show (if (if a = ['w'] then Color.white else Color.black) = Color.black
        then 2 * (fmv - 1) + 1 else 2 * (fmv - 1)) = _
      by_cases hpb : (if a = ['w'] then Color.white else Color.black) = Color.black
      · simp only [if_pos hpb]
      · simp only [if_neg hpb]; ring
    · rw [if_pos he] at h
      cases hat : algToSquare e with
      | none => simp [hat, Prod.mk.injEq] at h
      | some t =>
        simp only [hat] at h
        have h1 : _ = g1 := congrArg Prod.fst h
        rw [← h1]
        have hb := algToSquare_bounds e t hat
        refine fenClean_updateStatus _ rfl rfl rfl ?_
          (Or.inr ⟨t, rfl, rfl, hb.1, hb.2.1, hb.2.2.1, hb.2.2.2⟩)
        show (if (if a = ['w'] then Color.white else Color.black) = Color.black
          then 2 * (fmv - 1) + 1 else 2 * (fmv - 1)) = _
        by_cases hpb : (if a = ['w'] then Color.white else Color.black) = Color.black
        · simp only [if_pos hpb]
        · simp only [if_neg hpb]; ring

/-- Re-importing an exported clean state reproduces it exactly, into any
instance. -/
lemma fenImport_exportFen (g : ChessGame) (hc : fenClean g) (h0 : ChessGame) :
    fenImport h0 (exportFen g) = (g, none) := by
  obtain ⟨hst, htc, hep⟩ := hc
  rcases hep with ⟨hept, hepe⟩ | ⟨t, hept, hepe, ht1, ht2, ht3, ht4⟩
  · have hfen : exportFen g = joinSep [' ']
        [exportPlacement g.board,
         if g.current_player = Color.white then ['w'] else ['b'],
         exportCastling g.castling_rights, ['-'],
         intToChars g.halfmove_clock, intToChars g.fullmove_number] := by
      rw [exportFen]
      simp only [hept]
    have hsplit : splitWS (exportFen g) =
        [exportPlacement g.board,
         if g.current_player = Color.white then ['w'] else ['b'],
         exportCastling g.castling_rights, ['-'],
         intToChars g.halfmove_clock, intToChars g.fullmove_number] := by
      rw [hfen]
      refine splitWS_joinSep _ ?_ ?_
      · intro t' ht'
        simp only [List.mem_cons, List.not_mem_nil, or_false] at ht'
        rcases ht' with rfl | rfl | rfl | rfl | rfl | rfl
        · exact exportPlacement_ne_nil g.board
        · split_ifs <;> simp
        · exact exportCastling_ne_nil _
        · simp
        · exact intToChars_ne_nil _
        · exact intToChars_ne_nil _
      · intro t' ht'
        simp only [List.mem_cons, List.not_mem_nil, or_false] at ht'
        rcases ht' with rfl | rfl | rfl | rfl | rfl | rfl
        · exact exportPlacement_not_space g.board
        · split_ifs <;> intro ch hch <;> simp only [List.mem_singleton] at hch <;>
            rw [hch] <;> decide
        · exact exportCastling_not_space _
        · intro ch hch
          simp only [List.mem_singleton] at hch
          rw [hch]
          decide
        · exact intToChars_not_space _
        · exact intToChars_not_space _
    have hpf : parseFenFields (exportFen g) =
        .ok (g.board,
          [if g.current_player = Color.white then ['w'] else ['b'],
           exportCastling g.castling_rights, ['-'],
           intToChars g.halfmove_clock, intToChars g.fullmove_number]) := by
      rw [parseFenFields]
      simp only [hsplit]
      rw [if_neg (by simp)]
      simp only [exportPlacement_parse]
    rw [fenImport_eval_noEp h0 (exportFen g) g.board _ _ _ _ hpf
      g.fullmove_number g.halfmove_clock (pyIntOfChars_intToChars _)
      (pyIntOfChars_intToChars _)]
    rw [Prod.mk.injEq]
    refine ⟨?_, rfl⟩
    refine (congrArg updateStatus ?_).trans hst
    simp only [resetStatusFields, ChessGame.mk.injEq, and_true, true_and]
    refine ⟨exportCastling_roundtrip _, ?_, hept.symm, hepe.symm, ?_⟩
    · cases hcp : g.current_player <;> simp
    · rw [htc]
      cases hcp : g.current_player <;> simp
  · obtain ⟨tr, tc2⟩ := t
    have hfen : exportFen g = joinSep [' ']
        [exportPlacement g.board,
         if g.current_player = Color.white then ['w'] else ['b'],
         exportCastling g.castling_rights, squareToAlg (tr, tc2),
         intToChars g.halfmove_clock, intToChars g.fullmove_number] := by
      rw [exportFen]
      simp only [hept, hepe]
      rw [if_true]
    have hsplit : splitWS (exportFen g) =
        [exportPlacement g.board,
         if g.current_player = Color.white then ['w'] else ['b'],
         exportCastling g.castling_rights, squareToAlg (tr, tc2),
         intToChars g.halfmove_clock, intToChars g.fullmove_number] := by
      rw [hfen]
      refine splitWS_joinSep _ ?_ ?_
      · intro t' ht'
        simp only [List.mem_cons, List.not_mem_nil, or_false] at ht'
        rcases ht' with rfl | rfl | rfl | rfl | rfl | rfl
        · exact exportPlacement_ne_nil g.board
        · split_ifs <;> simp
        · exact exportCastling_ne_nil _
        · exact squareToAlg_ne_nil tr tc2 ht1 ht2
        · exact intToChars_ne_nil _
        · exact intToChars_ne_nil _
      · intro t' ht'
        simp only [List.mem_cons, List.not_mem_nil, or_false] at ht'
        rcases ht' with rfl | rfl | rfl | rfl | rfl | rfl
        · exact exportPlacement_not_space g.board
        · split_ifs <;> intro ch hch <;> simp only [List.mem_singleton] at hch <;>
            rw [hch] <;> decide
        · exact exportCastling_not_space _
        · exact squareToAlg_not_space tr tc2 ht1 ht2 ht3 ht4
        · exact intToChars_not_space _
        · exact intToChars_not_space _
    have hpf : parseFenFields (exportFen g) =
        .ok (g.board,
          [if g.current_player = Color.white then ['w'] else ['b'],
           exportCastling g.castling_rights, squareToAlg (tr, tc2),
           intToChars g.halfmove_clock, intToChars g.fullmove_number]) := by
      rw [parseFenFields]
      simp only [hsplit]
      rw [if_neg (by simp)]
      simp only [exportPlacement_parse]
    rw [fenImport_eval_ep h0 (exportFen g) g.board _ _ _ _ _ hpf
      g.fullmove_number g.halfmove_clock (pyIntOfChars_intToChars _)
      (pyIntOfChars_intToChars _) (squareToAlg_ne_dash tr tc2 ht1 ht2)
      (tr, tc2) (algToSquare_squareToAlg tr tc2 ht1 ht2 ht3 ht4)]
    rw [Prod.mk.injEq]
    refine ⟨?_, rfl⟩
    refine (congrArg updateStatus ?_).trans hst
    simp only [resetStatusFields, ChessGame.mk.injEq, and_true, true_and]
    refine ⟨exportCastling_roundtrip _, ?_, hept.symm, ?_, ?_⟩
    · cases hcp : g.current_player <;> simp
    · rw [hepe]
      congr 1
      rw [htc]
      cases hcp : g.current_player <;> simp
    · rw [htc]
      cases hcp : g.current_player <;> simp

/-! ### C3 -/

/-- The decoded side of the C3 witness: a minimal two-king position. -/
def c3fen : List Char := "k7/8/8/8/8/8/8/K7 w - - 0 1".toList

/-- `decode(c3fen)` applied to a fresh game. -/
def c3pos : ChessGame := (fenImport resetGame c3fen).1

/-- C3: the codec round-trips on every accepted position string. If
`import_fen` accepts `s` (producing state `g1` and no error), then exporting
`g1` and importing the result into any game instance reproduces `g1` exactly
and raises no error — the same board on all 64 squares, side to move, all four
castling-rights booleans, en-passant target and expiry, halfmove clock,
fullmove number, ply counter, and recomputed status fields. -/
theorem C3_decode_encode_decode_roundtrip (g0 g1 : ChessGame) (s : List Char)
    (h : fenImport g0 s = (g1, none)) (g2 : ChessGame) :
    fenImport g2 (exportFen g1) = (g1, none) :=
  fenImport_exportFen g1 (fenImport_clean g0 g1 s h) g2

/-- C3 witness: the hypothesis of the round-trip theorem holds at the concrete
position `c3fen`, and the theorem then yields the concrete round trip. -/
theorem C3_decode_encode_decode_roundtrip_witness :
    fenImport resetGame c3fen = (c3pos, none) ∧
    fenImport resetGame (exportFen c3pos) = (c3pos, none) :=
  have h : fenImport resetGame c3fen = (c3pos, none) := by
    have h2 : (fenImport resetGame c3fen).2 = none := by decide
    rw [← h2]
    exact Prod.mk.eta.symm
  ⟨h, C3_decode_encode_decode_roundtrip resetGame c3pos c3fen h resetGame⟩

/-! ### C10 -/

/-- A position string whose only flaw is the non-numeric fullmove field. -/
def c10fen : List Char := "8/8/8/8/8/8/8/8 w - - 0 x".toList

/-- C10 counterexample: `import_fen` rejects `c10fen` (the fullmove field
`"x"` fails `int()`), yet the game instance is left mutated: starting from the
reset position, the failed call empties the board (a1 loses its rook and every
other square its piece), because `game.board`, `game.current_player` and
`game.castling_rights` are assigned before the numeric fields are parsed. -/
theorem C10_counterexample_numeric_failure_mutates :
    (fenImport resetGame c10fen).2.isSome = true ∧
    (fenImport resetGame c10fen).1 ≠ resetGame ∧
    bGet (fenImport resetGame c10fen).1.board 0 0 = none ∧
    bGet resetGame.board 0 0 = some (Color.black, PieceType.R) := by
  decide

/-- C10 amended: the all-or-nothing guarantee holds exactly for the failures
raised by the pure parsing stage — wrong field count, wrong rank count, a
per-rank square-count error, or an unknown piece letter.  Those are detected
before any field of the game is assigned, and the instance is returned
unchanged with the error.  (Failures of the numeric fields or of the
en-passant square happen after `board`, `current_player` and
`castling_rights` — and for en passant also the counters — have been
assigned, as the counterexample shows.) -/
theorem C10_amended_early_failure_atomic (g : ChessGame) (s : List Char)
    (msg : String) (h : parseFenFields s = .error msg) :
    fenImport g s = (g, some msg) := by
  rw [fenImport, h]

/-- C10 amended witness: a rank-count failure leaves the reset position
untouched. -/
theorem C10_amended_witness :
    parseFenFields ("8/8 w - - 0 1".toList) =
      Except.error "Die Figurenaufstellung muss acht Reihen enthalten." ∧
    fenImport resetGame ("8/8 w - - 0 1".toList) =
      (resetGame, some "Die Figurenaufstellung muss acht Reihen enthalten.") :=
  have h : parseFenFields ("8/8 w - - 0 1".toList) =
      Except.error "Die Figurenaufstellung muss acht Reihen enthalten." := rfl
  ⟨h, C10_amended_early_failure_atomic resetGame ("8/8 w - - 0 1".toList) _ h⟩
